import Mathlib

/-!
# authorized: opening a user's `authorized_keys.d`

A shallow embedding of `exec/authorized_keys_d.go` (package `exec`) and of the
`provider.User` record it works on.  Go functions that touch the operating
system are state-passing functions over a `World`: a flat file namespace, the
table of open descriptors, the descriptors holding an exclusive `flock`, and
the trace of system calls made so far.  A Go result `(*T, error)` is a pair of
options (`none` is `nil`); a nil dereference is the outcome `none` of the call.
-/

set_option autoImplicit false

namespace Authorized

/-! ## Go standard library: `path/filepath` on Unix -/

namespace filepath

/-- The backtracking loop of `Clean` on the reversed output buffer, entered by `out.w--`:
`for out.w > dotdot && !os.IsPathSeparator(out.index(out.w)) { out.w-- }`.
The head of the list is the byte at index `out.w` after the decrement. -/
def unwind (dotdot : Nat) : List Char → List Char
  | [] => []
  | c :: rest => if dotdot < rest.length ∧ c ≠ '/' then unwind dotdot rest else rest

/-- The main loop `for r < n` of `Clean`.  The second argument bounds the number of
iterations, the third is `path[r:]`, the fourth the output buffer in reverse
(`out.w` is its length), the fifth `dotdot`.  Returns the buffer and `dotdot`. -/
def cleanLoop (rooted : Bool) : Nat → List Char → List Char → Nat → List Char × Nat
  | 0, _, out, dotdot => (out, dotdot)
  | _ + 1, [], out, dotdot => (out, dotdot)
  | fuel + 1, c :: rest, out, dotdot =>
    if c = '/' then
      -- empty path element
      cleanLoop rooted fuel rest out dotdot
    else if c = '.' ∧ (rest = [] ∨ rest.head? = some '/') then
      -- . element
      cleanLoop rooted fuel rest out dotdot
    else if c = '.' ∧ rest.head? = some '.' ∧ (rest.tail = [] ∨ rest.tail.head? = some '/') then
      -- .. element: remove to last separator
      if dotdot < out.length then
        cleanLoop rooted fuel rest.tail (unwind dotdot out) dotdot
      else if rooted = false then
        let out1 := if 0 < out.length then '/' :: out else out
        cleanLoop rooted fuel rest.tail ('.' :: '.' :: out1) (out1.length + 2)
      else
        cleanLoop rooted fuel rest.tail out dotdot
    else
      -- real path element: add slash if needed, copy element
      let out1 :=
        if (rooted = true ∧ out.length ≠ 1) ∨ (rooted = false ∧ out.length ≠ 0) then '/' :: out
        else out
      cleanLoop rooted fuel ((c :: rest).dropWhile (fun x => x ≠ '/'))
        (((c :: rest).takeWhile (fun x => x ≠ '/')).reverse ++ out1) dotdot

/-- Go `filepath.Clean` on the bytes of a Unix path (no volume name, `/` the only separator).
Bytes are read as characters: `/` and `.` are single bytes that occur in no longer UTF-8
sequence, so the loop takes the same branches either way. -/
def cleanChars (path : List Char) : List Char :=
  if path = [] then ['.']
  else
    let rooted : Bool := path.head? = some '/'
    let r := cleanLoop rooted path.length (if rooted then path.tail else path)
      (if rooted then ['/'] else []) (if rooted then 1 else 0)
    -- Turn empty string into "."
    if r.1 = [] then ['.'] else r.1.reverse

/-- Go `filepath.Clean`. -/
def Clean (path : String) : String := String.mk (cleanChars path.data)

/-- Go `filepath.Join` on bytes: leading empty elements are skipped, the rest is joined
with `/` and cleaned; the result is empty when every element is empty. -/
def joinChars : List (List Char) → List Char
  | [] => []
  | e :: rest => if e ≠ [] then cleanChars (List.intercalate ['/'] (e :: rest)) else joinChars rest

/-- Go `filepath.Join`. -/
def Join (elem : List String) : String := String.mk (joinChars (elem.map String.data))

end filepath

/-! ## The records of `provider` and `os/user` -/

/-- Go `provider.User`. -/
structure provider.User where
  Name : String
  SSHKeys : List String
  HomeDir : String
  Shell : String
  Disabled : Bool
deriving DecidableEq, Repr

/-- Go `os/user.User`. -/
structure user.User where
  Uid : String
  Gid : String
  Username : String
  Name : String
  HomeDir : String
deriving DecidableEq, Repr

/-! ## Constants of package `exec` -/

def authorizedKeysFile : String := "authorized_keys"
def authorizedKeysDir : String := "authorized_keys.d"
def preservedKeysName : String := "orig_authorized_keys"
def sshDir : String := ".ssh"
/-- In "~/". -/
def lockFile : String := ".authorized_keys.d.lock"
/-- In "~/.ssh". -/
def stageFile : String := ".authorized_keys.d.stage_file"
/-- In "~/.ssh". -/
def stageDir : String := ".authorized_keys.d.stage_dir"

/-! ## Errors -/

namespace syscall
def ENOENT : Nat := 2
def EBADF : Nat := 9
def EEXIST : Nat := 17
def ENOTDIR : Nat := 20
def EISDIR : Nat := 21
def EINVAL : Nat := 22
def ENOTEMPTY : Nat := 39
def O_RDONLY : Nat := 0x0
def O_ACCMODE : Nat := 0x3
def O_CREAT : Nat := 0x40
def O_EXCL : Nat := 0x80
def O_TRUNC : Nat := 0x200
def LOCK_SH : Nat := 1
def LOCK_EX : Nat := 2
def LOCK_NB : Nat := 4
def LOCK_UN : Nat := 8
end syscall

/-- A Go `error` value: a `syscall.Errno`, an `*os.PathError` or `*os.LinkError` around
one, the sentinels `os.ErrNotExist`, `os.ErrInvalid` and `os.ErrClosed`, or the result of
`fmt.Errorf` with a format without `%w` (kept as format and arguments). -/
inductive GoError where
  | Errno (e : Nat)
  | PathError (Op Path : String) (Err : Nat)
  | LinkError (Op Old New : String) (Err : Nat)
  | ErrNotExist
  | ErrInvalid
  | ErrClosed
  | Errorf (format : String) (args : List String)
deriving DecidableEq, Repr

/-- Go `os.underlyingError`: the error inside a `PathError` or `LinkError`. -/
def os.underlyingError : GoError → GoError
  | .PathError _ _ e => .Errno e
  | .LinkError _ _ _ e => .Errno e
  | err => err

/-- Go `os.IsNotExist`: false on `nil`; otherwise the underlying error is `ErrNotExist`
or the errno `ENOENT`. -/
def os.IsNotExist : Option GoError → Bool
  | none => false
  | some err =>
    match os.underlyingError err with
    | .ErrNotExist => true
    | .Errno e => e = syscall.ENOENT
    | _ => false

/-- Go `fmt.Errorf` for a format without `%w`. -/
def fmt.Errorf (format : String) (args : List String) : GoError := .Errorf format args

/-! ## The world: file namespace, descriptors, locks, trace -/

/-- What a path names: a regular file (bytes, permission bits), a directory, or a name
the kernel fails to resolve with the given errno (an unsearchable or missing parent,
a parent that is a file, a symlink loop, an I/O error). -/
inductive Node where
  | file (data : List Nat) (perm : Nat)
  | dir
  | unresolvable (errno : Nat)
deriving DecidableEq, Repr

/-- Go `*os.File` behind the pointer: descriptor and name. -/
structure os.File where
  fd : Nat
  name : String
deriving DecidableEq, Repr

/-- Go `os.FileInfo`, as far as it is used. -/
structure os.FileInfo where
  size : Nat
  perm : Nat
  isDir : Bool
deriving DecidableEq, Repr

/-- One system call (or the entry of the migration), with its arguments and outcome. -/
inductive Event where
  | OpenFile (user name : String) (flag perm : Nat) (fd : Option Nat)
  | Flock (fd how : Nat) (ok : Bool)
  | Close (fd : Nat)
  | Stat (name : String)
  | createAuthorizedKeysDir (home : String)
  | RemoveAll (name : String)
  | Mkdir (name : String) (perm : Nat)
  | ReadFile (name : String)
  | WriteFile (name : String) (perm : Nat)
  | Rename (oldpath newpath : String)
  | Remove (name : String)
deriving DecidableEq, Repr

/-- State of the machine the program runs on. -/
structure World where
  /-- The file namespace, keyed by the path string handed to the system call. -/
  fs : String → Option Node
  /-- Open descriptors of this process and the name each was opened on. -/
  fds : List (Nat × String)
  /-- Descriptors of this process that hold an exclusive `flock`. -/
  locks : List Nat
  /-- The errno the kernel answers `flock` with (`EINTR`, `ENOLCK`), if it refuses. -/
  flockErr : Option Nat
  /-- System calls made so far, oldest first. -/
  trace : List Event

/-- Append an event to the trace. -/
def World.log (w : World) (e : Event) : World := { w with trace := w.trace ++ [e] }

/-- Bind a name in the file namespace. -/
def World.put (w : World) (name : String) (n : Node) : World :=
  { w with fs := fun k => if k = name then some n else w.fs k }

/-- The lowest descriptor number not in use (POSIX allocation). -/
def lowestFree (used : List Nat) : Nat :=
  ((List.range (used.length + 1)).find? (fun n => decide (n ∉ used))).getD used.length

/-- Whether path `k` is `d` itself or lies below directory `d`. -/
def under (d k : String) : Bool := decide (k = d) || (d.data ++ ['/']).isPrefixOf k.data

/-- Path `k` below `src`, moved below `dst`. -/
def rebase (src dst k : String) : String := String.mk (dst.data ++ k.data.drop src.data.length)

/-- Modelled from the spec: `as_user.OpenFile` (package `as_user` is not among the sources),
"opens (creating if absent) the lock file with owner-only permissions" as the given user:
`open(2)` with the flags `O_CREAT`, `O_EXCL`, `O_TRUNC` and the access mode honoured. -/
def as_user.OpenFile (u : provider.User) (name : String) (flag perm : Nat) (w : World) :
    Except GoError os.File × World :=
  let fd := lowestFree (w.fds.map Prod.fst)
  let opened : World → Except GoError os.File × World := fun w1 =>
    (.ok ⟨fd, name⟩,
      ({ w1 with fds := (fd, name) :: w1.fds }).log (.OpenFile u.Name name flag perm (some fd)))
  let failed : Nat → Except GoError os.File × World := fun e =>
    (.error (.PathError "open" name e), w.log (.OpenFile u.Name name flag perm none))
  match w.fs name with
  | some (.unresolvable e) => failed e
  | some .dir =>
    if flag &&& syscall.O_CREAT ≠ 0 ∨ flag &&& syscall.O_ACCMODE ≠ syscall.O_RDONLY then
      failed syscall.EISDIR
    else opened w
  | some (.file _ p) =>
    if flag &&& syscall.O_CREAT ≠ 0 ∧ flag &&& syscall.O_EXCL ≠ 0 then failed syscall.EEXIST
    else if flag &&& syscall.O_TRUNC ≠ 0 ∧ flag &&& syscall.O_ACCMODE ≠ syscall.O_RDONLY then
      opened (w.put name (.file [] p))
    else opened w
  | none =>
    if flag &&& syscall.O_CREAT ≠ 0 then opened (w.put name (.file [] perm))
    else failed syscall.ENOENT

/-- Go `(*os.File).Fd`. -/
def os.File.Fd (f : os.File) : Nat := f.fd

/-- Go `(*os.File).Close`: `ErrInvalid` on a nil file, `ErrClosed` on a closed one;
otherwise the descriptor is released, and with it any lock it holds. -/
def os.File.Close (f : Option os.File) (w : World) : Option GoError × World :=
  match f with
  | none => (some .ErrInvalid, w)
  | some f =>
    if (f.fd, f.name) ∈ w.fds then
      (none, ({ w with fds := w.fds.filter (fun e => e.1 ≠ f.fd),
                       locks := w.locks.filter (fun d => d ≠ f.fd) }).log (.Close f.fd))
    else (some .ErrClosed, w)

/-- Go `syscall.Flock`.  The command is `how` without `LOCK_NB`; `LOCK_EX` records the
descriptor as exclusive holder, `LOCK_SH` and `LOCK_UN` drop it from the exclusive holders.
Waiting for a lock held through another open file description is outside this sequential
model: the call would not return. -/
def syscall.Flock (fd how : Nat) (w : World) : Option GoError × World :=
  let cmd := how ^^^ (how &&& syscall.LOCK_NB)
  if fd ∉ w.fds.map Prod.fst then (some (.Errno syscall.EBADF), w.log (.Flock fd how false))
  else if cmd ≠ syscall.LOCK_SH ∧ cmd ≠ syscall.LOCK_EX ∧ cmd ≠ syscall.LOCK_UN then
    (some (.Errno syscall.EINVAL), w.log (.Flock fd how false))
  else
    match w.flockErr with
    | some e => (some (.Errno e), w.log (.Flock fd how false))
    | none =>
      if cmd = syscall.LOCK_EX then
        (none, ({ w with locks := fd :: w.locks.filter (fun d => d ≠ fd) }).log (.Flock fd how true))
      else
        (none, ({ w with locks := w.locks.filter (fun d => d ≠ fd) }).log (.Flock fd how true))

/-- Go `os.Stat`. -/
def os.Stat (name : String) (w : World) : Except GoError os.FileInfo × World :=
  let w1 := w.log (.Stat name)
  match w.fs name with
  | none => (.error (.PathError "stat" name syscall.ENOENT), w1)
  | some (.unresolvable e) => (.error (.PathError "stat" name e), w1)
  | some (.file data p) => (.ok ⟨data.length, p, false⟩, w1)
  | some .dir => (.ok ⟨0, 0o755, true⟩, w1)

/-- Go `os.FileInfo.IsDir`. -/
def os.FileInfo.IsDir (fi : os.FileInfo) : Bool := fi.isDir

/-- Go `os.RemoveAll`: removes the path and everything below it; no error when nothing is there. -/
def os.RemoveAll (name : String) (w : World) : Option GoError × World :=
  let w1 := w.log (.RemoveAll name)
  match w.fs name with
  | some (.unresolvable e) =>
    if e = syscall.ENOENT then (none, w1) else (some (.PathError "unlinkat" name e), w1)
  | _ => (none, { w1 with fs := fun k => if under name k then none else w.fs k })

/-- Go `os.Mkdir`. -/
def os.Mkdir (name : String) (perm : Nat) (w : World) : Option GoError × World :=
  let w1 := w.log (.Mkdir name perm)
  match w.fs name with
  | none => (none, w1.put name .dir)
  | some (.unresolvable e) => (some (.PathError "mkdir" name e), w1)
  | some _ => (some (.PathError "mkdir" name syscall.EEXIST), w1)

/-- Go `os.ReadFile`. -/
def os.ReadFile (name : String) (w : World) : Except GoError (List Nat) × World :=
  let w1 := w.log (.ReadFile name)
  match w.fs name with
  | none => (.error (.PathError "open" name syscall.ENOENT), w1)
  | some (.unresolvable e) => (.error (.PathError "open" name e), w1)
  | some .dir => (.error (.PathError "read" name syscall.EISDIR), w1)
  | some (.file data _) => (.ok data, w1)

/-- Go `os.WriteFile`: create or truncate, then write. -/
def os.WriteFile (name : String) (data : List Nat) (perm : Nat) (w : World) :
    Option GoError × World :=
  let w1 := w.log (.WriteFile name perm)
  match w.fs name with
  | none => (none, w1.put name (.file data perm))
  | some (.file _ p) => (none, w1.put name (.file data p))
  | some .dir => (some (.PathError "open" name syscall.EISDIR), w1)
  | some (.unresolvable e) => (some (.PathError "open" name e), w1)

/-- Go `os.Rename` (`rename(2)`): the source and everything below it moves to the new name
in one step.  A directory over an existing directory is answered `ENOTEMPTY` (the flat
namespace does not record whether a directory is empty). -/
def os.Rename (oldpath newpath : String) (w : World) : Option GoError × World :=
  let w1 := w.log (.Rename oldpath newpath)
  let fail : Nat → Option GoError × World := fun e => (some (.LinkError "rename" oldpath newpath e), w1)
  let moved : String → Option Node := fun k =>
    if under newpath k then
      (if under oldpath (rebase newpath oldpath k) then w.fs (rebase newpath oldpath k) else none)
    else if under oldpath k then none
    else w.fs k
  let move : Option GoError × World := (none, { w1 with fs := moved })
  match w.fs oldpath, w.fs newpath with
  | none, _ => fail syscall.ENOENT
  | some (.unresolvable e), _ => fail e
  | some _, some (.unresolvable e) => fail e
  | some .dir, some (.file _ _) => fail syscall.ENOTDIR
  | some .dir, some .dir => fail syscall.ENOTEMPTY
  | some (.file _ _), some .dir => fail syscall.EISDIR
  | some _, _ => if oldpath = newpath then (none, w1) else move

/-- Go `os.Remove` of a file; a directory is answered `ENOTEMPTY` (see `os.Rename`). -/
def os.Remove (name : String) (w : World) : Option GoError × World :=
  let w1 := w.log (.Remove name)
  match w.fs name with
  | none => (some (.PathError "remove" name syscall.ENOENT), w1)
  | some (.unresolvable e) => (some (.PathError "remove" name e), w1)
  | some .dir => (some (.PathError "remove" name syscall.ENOTEMPTY), w1)
  | some (.file _ _) => (none, { w1 with fs := fun k => if k = name then none else w.fs k })

/-! ## Package `exec` -/

/-- Go `sshAuthorizedKeysDir`: an opened user's authorized_keys.d. -/
structure sshAuthorizedKeysDir where
  /-- Path to authorized_keys.d directory. -/
  path : String
  /-- User of the directory. -/
  user : Option provider.User
  /-- Lock file for serializing Open()-Close(). -/
  lock : Option os.File
deriving DecidableEq, Repr

/-- Go `lockFilePath`: the path to the lock file for the user. -/
def lockFilePath (u : provider.User) : String :=
  filepath.Join [u.HomeDir, lockFile]

/-- Go `sshDirPath`: the path to the .ssh dir for the user. -/
def sshDirPath (u : user.User) : String :=
  filepath.Join [u.HomeDir, sshDir]

/-- Go `authKeysFilePath`: the path to the authorized_keys file for the user. -/
def authKeysFilePath (u : user.User) : String :=
  filepath.Join [sshDirPath u, authorizedKeysFile]

/-- Modelled from the spec: the `os/user` record of a provider user, needed because the
sources apply `sshDirPath` (on `*user.User`) to the `*provider.User` being opened; only
the home directory is carried over. -/
def osUser (u : provider.User) : user.User :=
  { Uid := "", Gid := "", Username := u.Name, Name := u.Name, HomeDir := u.HomeDir }

/-- Modelled from the spec: `authKeysDirPath` is not among the sources; the layout table
gives `~/.ssh/authorized_keys.d/`, the directory-based store. -/
def authKeysDirPath (u : provider.User) : String :=
  filepath.Join [sshDirPath (osUser u), authorizedKeysDir]

/-- Modelled from the spec: the staging directory `~/.ssh/.authorized_keys.d.stage_dir`. -/
def stageDirPath (u : provider.User) : String :=
  filepath.Join [sshDirPath (osUser u), stageDir]

/-- Modelled from the spec: the staging file `~/.ssh/.authorized_keys.d.stage_file`. -/
def stageFilePath (u : provider.User) : String :=
  filepath.Join [sshDirPath (osUser u), stageFile]

/-- Go `opendir`: opens the authorized keys directory. -/
def opendir (dir : String) (w : World) :
    (Option sshAuthorizedKeysDir × Option GoError) × World :=
  match os.Stat dir w with
  | (.error err, w1) => ((none, some err), w1)
  | (.ok fi, w1) =>
    if fi.IsDir = false then
      ((none, some (fmt.Errorf "%q is not a directory" [dir])), w1)
    else
      ((some { path := dir, user := none, lock := none }, none), w1)

/-- Go `acquireLock`: locks the lock file for the given user's authorized_keys.d.
A lock file is created if it doesn't already exist. -/
def acquireLock (u : provider.User) (w : World) : (Option os.File × Option GoError) × World :=
  match as_user.OpenFile u (lockFilePath u) (syscall.O_CREAT ||| syscall.O_RDONLY) 0o600 w with
  | (.error err, w1) => ((none, some err), w1)
  | (.ok f, w1) =>
    match syscall.Flock f.Fd syscall.LOCK_EX w1 with
    | (some err, w2) => ((none, some err), (os.File.Close (some f) w2).2)
    | (none, w2) => ((some f, none), w2)

/-- Modelled from the spec: steps 3 and 4 of the migration of section 4.3 (the function is
not among the sources): rename the staging directory to `authorized_keys.d`, and "only
after successful installation" remove the legacy file, when there was one. -/
def installStaged (usr : provider.User) (legacy : Bool) (w : World) :
    (Option sshAuthorizedKeysDir × Option GoError) × World :=
  match os.Rename (stageDirPath usr) (authKeysDirPath usr) w with
  | (some err, w1) => ((none, some err), w1)
  | (none, w1) =>
    if legacy then
      match os.Remove (authKeysFilePath (osUser usr)) w1 with
      | (some err, w2) => ((none, some err), w2)
      | (none, w2) => ((some { path := authKeysDirPath usr, user := none, lock := none }, none), w2)
    else ((some { path := authKeysDirPath usr, user := none, lock := none }, none), w1)

/-- Modelled from the spec: `createAuthorizedKeysDir` is not among the sources.  Section 4.3:
(1) build the new directory in the staging directory (leftovers of an earlier attempt are
overwritten); (2) if a legacy `authorized_keys` file exists, copy its bytes into the staging
area, to end up as `authorized_keys.d/orig_authorized_keys`; (3) rename the staging
directory to `authorized_keys.d`; (4) only then remove the legacy file.  Any failure is
returned to the caller. -/
def createAuthorizedKeysDir (usr : provider.User) (w : World) :
    (Option sshAuthorizedKeysDir × Option GoError) × World :=
  match os.RemoveAll (stageDirPath usr) (w.log (.createAuthorizedKeysDir usr.HomeDir)) with
  | (some err, w1) => ((none, some err), w1)
  | (none, w1) =>
    match os.Mkdir (stageDirPath usr) 0o700 w1 with
    | (some err, w2) => ((none, some err), w2)
    | (none, w2) =>
      match os.Stat (authKeysFilePath (osUser usr)) w2 with
      | (.error err, w3) =>
        if os.IsNotExist (some err) then installStaged usr false w3 else ((none, some err), w3)
      | (.ok fi, w3) =>
        if fi.IsDir then installStaged usr false w3
        else
          match os.ReadFile (authKeysFilePath (osUser usr)) w3 with
          | (.error err, w4) => ((none, some err), w4)
          | (.ok data, w4) =>
            match os.WriteFile (filepath.Join [stageDirPath usr, preservedKeysName]) data 0o600
                w4 with
            | (some err, w5) => ((none, some err), w5)
            | (none, w5) => installStaged usr true w5

/-- Go `openUser` (documented as Open): opens the authorized keys directory for the
supplied user.  If create is false, Open will fail if no directory exists yet.  If create
is true, Open will create the directory if it doesn't exist, preserving the
authorized_keys file in the process.  The variable `err` is shared with the deferred
closure, which closes the lock file when `err` is not nil at return.  The outer `none`
is the nil dereference at `akd.lock = l`. -/
def openUser (usr : provider.User) (create : Bool) (w : World) :
    Option (Option sshAuthorizedKeysDir × Option GoError) × World :=
  match acquireLock usr w with
  | ((_, some err), w1) => (some (none, some err), w1)
  | ((l, none), w1) =>
    let deferred : Option GoError → World → World := fun err w =>
      if err ≠ none then (os.File.Close l w).2 else w
    let finish : Option sshAuthorizedKeysDir → Option GoError → World →
        Option (Option sshAuthorizedKeysDir × Option GoError) × World := fun akd err w =>
      match akd with
      | none => (none, deferred err w)
      | some a => (some (some { a with lock := l, user := some usr }, none), deferred err w)
    match opendir (authKeysDirPath usr) w1 with
    | ((akd, err), w2) =>
      if err ≠ none ∧ (create = false ∨ os.IsNotExist err = false) then
        (some (none, err), deferred err w2)
      else if os.IsNotExist err then
        match createAuthorizedKeysDir usr w2 with
        | ((akd, err), w3) =>
          if err ≠ none then (some (none, err), deferred err w3)
          else finish akd err w3
      else finish akd err w2

/-! ## Definitions used to state and prove the properties -/

namespace filepath

/-- The loop of `Clean` on `p` with the iteration bound `Clean` gives it. -/
def run (rooted : Bool) (p : List Char) (s : List Char × Nat) : List Char × Nat :=
  cleanLoop rooted p.length p s.1 s.2

/-- Buffer and `dotdot` at loop entry. -/
def initState (rooted : Bool) : List Char × Nat :=
  (if rooted then ['/'] else [], if rooted then 1 else 0)

/-- Effect of a real path element on the loop state. -/
def pushName (rooted : Bool) (n : List Char) (s : List Char × Nat) : List Char × Nat :=
  (n.reverse ++
    (if (rooted = true ∧ s.1.length ≠ 1) ∨ (rooted = false ∧ s.1.length ≠ 0) then '/' :: s.1
     else s.1), s.2)

/-- Effect of appending a `..` element that cannot backtrack. -/
def pushDots (s : List Char × Nat) : List Char × Nat :=
  ('.' :: '.' :: (if 0 < s.1.length then '/' :: s.1 else s.1),
    (if 0 < s.1.length then '/' :: s.1 else s.1).length + 2)

/-- Effect of a `..` element on the loop state. -/
def dotdotStep (rooted : Bool) (s : List Char × Nat) : List Char × Nat :=
  if s.2 < s.1.length then (unwind s.2 s.1, s.2)
  else if rooted = false then pushDots s
  else s

/-- Effect of one slash-free path element on the loop state. -/
def stepElem (rooted : Bool) (e : List Char) (s : List Char × Nat) : List Char × Nat :=
  if e = [] ∨ e = ['.'] then s
  else if e = ['.', '.'] then dotdotStep rooted s
  else pushName rooted e s

/-- A real path element: not empty, no separator, neither `.` nor `..`. -/
def IsName (n : List Char) : Prop := n ≠ [] ∧ '/' ∉ n ∧ n ≠ ['.'] ∧ n ≠ ['.', '.']

instance IsName.decidable (n : List Char) : Decidable (IsName n) := by unfold IsName; infer_instance

/-- Path `t` followed by the element `x`. -/
def snocElem (t x : List Char) : List Char := if t = [] then x else t ++ '/' :: x

/-- Loop states reachable from the entry state, each with the cleaned relative path
that reproduces it: `..` elements first (unrooted paths only), then real elements. -/
inductive Valid (rooted : Bool) : List Char × Nat → List Char → Prop where
  | init : Valid rooted (initState rooted) []
  | dots (s : List Char × Nat) (t : List Char) : Valid rooted s t → rooted = false →
      s.1.length = s.2 → Valid rooted (pushDots s) (snocElem t ['.', '.'])
  | name (s : List Char × Nat) (t n : List Char) : Valid rooted s t → IsName n →
      Valid rooted (pushName rooted n s) (snocElem t n)

/-- Whether a path starts with the separator. -/
def isRooted (p : List Char) : Bool := decide (p.head? = some '/')

/-- The part of a path the loop of `Clean` reads: everything after the leading separator. -/
def body (p : List Char) : List Char := if isRooted p then p.tail else p

/-- Loop state of `Clean` at exit. -/
def stateOf (p : List Char) : List Char × Nat :=
  run (isRooted p) (body p) (initState (isRooted p))

/-- The result `Clean` builds from the exit state. -/
def finish (s : List Char × Nat) : List Char := if s.1 = [] then ['.'] else s.1.reverse

/-- Last element of a path: what follows the last separator. -/
def lastElem (p : List Char) : List Char := (p.reverse.takeWhile (fun x => x ≠ '/')).reverse

end filepath

/-- A user with home directory `/home/core`. -/
def exUser : provider.User :=
  { Name := "core", SSHKeys := ["ssh-ed25519 AAAA core@host"], HomeDir := "/home/core",
    Shell := "/bin/bash", Disabled := false }

/-- A world with the home and `.ssh` directories only: no lock file, no store. -/
def exFresh : World :=
  { fs := fun k => if k = "/home/core" ∨ k = "/home/core/.ssh" then some .dir else none,
    fds := [(0, "/dev/stdin"), (1, "/dev/stdout"), (2, "/dev/stderr")],
    locks := [], flockErr := none, trace := [] }

/-- A world where `authorized_keys.d` is a regular file and the lock file exists. -/
def exCollision : World :=
  { fs := fun k =>
      if k = "/home/core" ∨ k = "/home/core/.ssh" then some .dir
      else if k = "/home/core/.ssh/authorized_keys.d" then some (.file [107, 101, 121] 0o644)
      else if k = "/home/core/.authorized_keys.d.lock" then some (.file [] 0o600)
      else none,
    fds := [], locks := [], flockErr := none, trace := [] }

/-- A world where `authorized_keys.d` is a regular file and the lock path is a directory,
so that the lock file cannot be opened. -/
def exCollisionNoLock : World :=
  { fs := fun k =>
      if k = "/home/core" ∨ k = "/home/core/.ssh" then some .dir
      else if k = "/home/core/.ssh/authorized_keys.d" then some (.file [107, 101, 121] 0o644)
      else if k = "/home/core/.authorized_keys.d.lock" then some .dir
      else none,
    fds := [], locks := [], flockErr := none, trace := [] }

/-- A world where the store exists as a directory, next to leftovers of the staging
area and a legacy file, and the lock file is there. -/
def exMigrated : World :=
  { fs := fun k =>
      if k = "/home/core" ∨ k = "/home/core/.ssh" ∨ k = "/home/core/.ssh/authorized_keys.d"
      then some .dir
      else if k = "/home/core/.ssh/authorized_keys.d/orig_authorized_keys"
      then some (.file [115, 115, 104] 0o600)
      else if k = "/home/core/.ssh/authorized_keys" then some (.file [107] 0o600)
      else if k = "/home/core/.ssh/.authorized_keys.d.stage_file" then some (.file [1] 0o600)
      else if k = "/home/core/.authorized_keys.d.lock" then some (.file [] 0o600)
      else none,
    fds := [(0, "/dev/stdin")], locks := [], flockErr := none, trace := [] }

/-- A world where `flock` is refused with `EINTR`. -/
def exInterrupted : World :=
  { fs := fun k => if k = "/home/core" ∨ k = "/home/core/.ssh" then some .dir else none,
    fds := [], locks := [], flockErr := some 4, trace := [] }

/-- A world where the `.ssh` directory cannot be searched: the store path fails to
resolve with `EACCES`. -/
def exDenied : World :=
  { fs := fun k =>
      if k = "/home/core" ∨ k = "/home/core/.ssh" then some .dir
      else if k = "/home/core/.ssh/authorized_keys.d" then some (.unresolvable 13)
      else none,
    fds := [], locks := [], flockErr := none, trace := [] }

/-- A world with no store where the staging directory cannot be set up: its path fails
to resolve with `EACCES`, so the migration fails at its first step. -/
def exStageBlocked : World :=
  { fs := fun k =>
      if k = "/home/core" ∨ k = "/home/core/.ssh" then some .dir
      else if k = "/home/core/.ssh/.authorized_keys.d.stage_dir" then some (.unresolvable 13)
      else none,
    fds := [], locks := [], flockErr := none, trace := [] }

/-- A world with a legacy `authorized_keys` file, a leftover staging directory, and no
store yet. -/
def exLegacy : World :=
  { fs := fun k =>
      if k = "/home/core" ∨ k = "/home/core/.ssh" then some .dir
      else if k = "/home/core/.ssh/authorized_keys" then some (.file [115, 115, 104, 45] 0o644)
      else if k = "/home/core/.ssh/.authorized_keys.d.stage_dir" then some .dir
      else if k = "/home/core/.ssh/.authorized_keys.d.stage_dir/orig_authorized_keys"
      then some (.file [0] 0o600)
      else none,
    fds := [(0, "/dev/stdin")], locks := [], flockErr := none, trace := [] }

/-- A world where `~/.ssh` is a regular file: nothing is at the store path, and the
kernel fails to resolve it with `ENOTDIR`. -/
def exSshFile : World :=
  { fs := fun k =>
      if k = "/home/core" then some .dir
      else if k = "/home/core/.ssh" then some (.file [] 0o644)
      else if k = "/home/core/.ssh/authorized_keys.d" then some (.unresolvable 20)
      else none,
    fds := [], locks := [], flockErr := none, trace := [] }

/-- A world where `~/.ssh` is missing and the lock file exists: the store path fails to
resolve with `ENOENT`. -/
def exNoSsh : World :=
  { fs := fun k =>
      if k = "/home/core" then some .dir
      else if k = "/home/core/.authorized_keys.d.lock" then some (.file [] 0o600)
      else if k = "/home/core/.ssh/authorized_keys.d" then some (.unresolvable 2)
      else none,
    fds := [], locks := [], flockErr := none, trace := [] }

/-- Events of a call: what the trace of `w2` has beyond the trace of `w`. -/
def newEvents (w w2 : World) : List Event := w2.trace.drop w.trace.length

/-- Whether an event is an entry of the migration. -/
def Event.isCreate : Event → Bool
  | .createAuthorizedKeysDir _ => true
  | _ => false

/-- Whether an event is a `stat` of the given path. -/
def Event.isStatOf (p : String) : Event → Bool
  | .Stat q => decide (q = p)
  | _ => false

/-- Whether an event leaves descriptors and locks alone (no open, flock or close). -/
def Event.noDescriptor : Event → Bool
  | .OpenFile _ _ _ _ _ => false
  | .Flock _ _ _ => false
  | .Close _ => false
  | _ => true

/-- World `w2` comes from `w` by file-namespace calls only: same descriptors, same locks,
and the trace grew by events that touch no descriptor. -/
def Frame (w w2 : World) : Prop :=
  w2.fds = w.fds ∧ w2.locks = w.locks ∧ w2.flockErr = w.flockErr ∧
    ∃ evs, w2.trace = w.trace ++ evs ∧ ∀ e ∈ evs, e.noDescriptor = true

/-- A Go result pair that is either `(nil, err)` with an error or `(&dir, nil)` with the
directory at path `p`, not yet locked. -/
def Shaped (p : String) (r : Option sshAuthorizedKeysDir × Option GoError) : Prop :=
  (r.1 = none ∧ r.2 ≠ none) ∨ r = (some { path := p, user := none, lock := none }, none)

/-! ## Theorems -/

namespace filepath

theorem cleanLoop_fuel (rooted : Bool) : ∀ (f1 f2 : Nat) (p out : List Char) (dd : Nat),
    p.length ≤ f1 → p.length ≤ f2 →
    cleanLoop rooted f1 p out dd = cleanLoop rooted f2 p out dd := by
  intro f1
  induction f1 with
  | zero =>
    intro f2 p out dd h1 _
    have hp : p = [] := List.length_eq_zero.mp (Nat.le_zero.mp h1)
    subst hp
    cases f2 <;> simp [cleanLoop]
  | succ n ih =>
    intro f2 p out dd h1 h2
    cases p with
    | nil => cases f2 <;> simp [cleanLoop]
    | cons c rest =>
      cases f2 with
      | zero => simp at h2
      | succ m =>
        simp only [List.length_cons, Nat.add_le_add_iff_right] at h1 h2
        have ht1 : rest.tail.length ≤ n := by simp; omega
        have ht2 : rest.tail.length ≤ m := by simp; omega
        simp only [cleanLoop]
        split_ifs with hc h2c h3c <;> first
          | exact ih _ _ _ _ h1 h2
          | exact ih _ _ _ _ ht1 ht2
          | (apply ih
             · rw [List.dropWhile_cons_of_pos (by simpa using hc)]
               exact le_trans (List.dropWhile_suffix _).length_le h1
             · rw [List.dropWhile_cons_of_pos (by simpa using hc)]
               exact le_trans (List.dropWhile_suffix _).length_le h2)

theorem run_nil (rooted : Bool) (s : List Char × Nat) : run rooted [] s = s := by
  simp [run, cleanLoop]

theorem run_slash (rooted : Bool) (rest : List Char) (s : List Char × Nat) :
    run rooted ('/' :: rest) s = run rooted rest s := by
  simp only [run, List.length_cons, cleanLoop, if_true]

theorem takeWhile_elem (e tl : List Char) (he : '/' ∉ e)
    (htl : tl = [] ∨ tl.head? = some '/') :
    (e ++ tl).takeWhile (fun x => x ≠ '/') = e ∧ (e ++ tl).dropWhile (fun x => x ≠ '/') = tl := by
  induction e with
  | nil =>
    rcases htl with rfl | h
    · simp
    · cases tl with
      | nil => simp
      | cons d tl => 
        simp only [List.head?_cons, Option.some.injEq] at h
        subst h
        simp
  | cons c e ih =>
    have hc : c ≠ '/' := fun h => he (by simp [h])
    have he2 : '/' ∉ e := fun h => he (by simp [h])
    have h := ih he2
    simp only [ne_eq, decide_not] at h ⊢
    simp [hc, h]

theorem run_elem (rooted : Bool) (e tl : List Char) (s : List Char × Nat) (he : '/' ∉ e)
    (htl : tl = [] ∨ tl.head? = some '/') :
    run rooted (e ++ tl) s = run rooted tl (stepElem rooted e s) := by
  cases e with
  | nil => simp [stepElem]
  | cons c e =>
    have hc : c ≠ '/' := fun h => he (by simp [h])
    have he2 : '/' ∉ e := fun h => he (by simp [h])
    by_cases h1 : c :: e = ['.']
    · simp only [List.cons.injEq] at h1
      obtain ⟨rfl, rfl⟩ := h1
      have hcond : tl = [] ∨ tl.head? = some '/' := htl
      simp only [run, stepElem, List.cons_append, List.nil_append, List.length_cons, cleanLoop]
      simp [hcond]
    · by_cases h2 : c :: e = ['.', '.']
      · simp only [List.cons.injEq] at h2
        obtain ⟨rfl, rfl, rfl⟩ := h2
        have hf : ∀ out dd, cleanLoop rooted (tl.length + 1) tl out dd
            = cleanLoop rooted tl.length tl out dd := fun out dd =>
          cleanLoop_fuel rooted _ _ tl out dd (Nat.le_succ _) (le_refl _)
        simp only [run, stepElem, dotdotStep, pushDots, List.cons_append, List.nil_append,
          List.length_cons, cleanLoop]
        simp [htl, hf]
        split_ifs <;> rfl
      · have n2 : ¬ (c = '.' ∧ (e ++ tl = [] ∨ (e ++ tl).head? = some '/')) := by
          rintro ⟨rfl, h⟩
          cases e with
          | nil => exact h1 rfl
          | cons d e => 
            simp only [List.cons_append, List.head?_cons, Option.some.injEq] at h
            rcases h with h | h
            · exact absurd h (by simp)
            · exact he2 (by simp [h])
        have n3 : ¬ (c = '.' ∧ (e ++ tl).head? = some '.' ∧
            ((e ++ tl).tail = [] ∨ (e ++ tl).tail.head? = some '/')) := by
          rintro ⟨rfl, h, h3⟩
          cases e with
          | nil => exact h1 rfl
          | cons d e =>
            simp only [List.cons_append, List.head?_cons, Option.some.injEq] at h
            subst h
            cases e with
            | nil => exact h2 rfl
            | cons d2 e =>
              simp only [List.cons_append, List.tail_cons, List.head?_cons,
                Option.some.injEq] at h3
              rcases h3 with h3 | h3
              · exact absurd h3 (by simp)
              · exact he2 (by simp [h3])
        obtain ⟨ht, hd⟩ := takeWhile_elem (c :: e) tl he htl
        have hs : stepElem rooted (c :: e) s = pushName rooted (c :: e) s := by
          simp [stepElem, h1, h2]
        rw [hs]
        simp only [List.cons_append] at ht hd ⊢
        have hlen : tl.length ≤ (e ++ tl).length := by simp
        generalize e ++ tl = r at n2 n3 ht hd hlen ⊢
        have hf : ∀ out dd, cleanLoop rooted r.length tl out dd
            = cleanLoop rooted tl.length tl out dd := fun out dd =>
          cleanLoop_fuel rooted _ _ tl out dd hlen (le_refl _)
        simp only [run, pushName, List.cons_append, List.length_cons, cleanLoop, if_neg hc,
          if_neg n2, if_neg n3, ht, hd, hf]

theorem run_elem_slash (rooted : Bool) (e q : List Char) (s : List Char × Nat)
    (he : '/' ∉ e) : run rooted (e ++ '/' :: q) s = run rooted q (stepElem rooted e s) := by
  have h : ('/' :: q) = [] ∨ ('/' :: q).head? = some '/' := Or.inr rfl
  rw [run_elem rooted e ('/' :: q) s he h, run_slash]

theorem run_elem_last (rooted : Bool) (e : List Char) (s : List Char × Nat)
    (he : '/' ∉ e) : run rooted e s = stepElem rooted e s := by
  have := run_elem rooted e [] s he (Or.inl rfl)
  rwa [List.append_nil, run_nil] at this

theorem slash_cases : ∀ p : List Char,
    '/' ∉ p ∨ ∃ e q, '/' ∉ e ∧ p = e ++ '/' :: q
  | [] => Or.inl (by simp)
  | c :: p => by
    by_cases hc : c = '/'
    · exact Or.inr ⟨[], p, by simp, by simp [hc]⟩
    · rcases slash_cases p with h | ⟨e, q, he, rfl⟩
      · exact Or.inl (by simp [hc, h, Ne.symm hc])
      · exact Or.inr ⟨c :: e, q, by simp [he, Ne.symm hc], by simp⟩

theorem slash_induction {P : List Char → Prop} (h1 : ∀ e, '/' ∉ e → P e)
    (h2 : ∀ e q, '/' ∉ e → P q → P (e ++ '/' :: q)) : ∀ p, P p := by
  have key : ∀ n : Nat, ∀ p : List Char, p.length ≤ n → P p := by
    intro n
    induction n with
    | zero =>
      intro p hp
      have : p = [] := List.length_eq_zero.mp (Nat.le_zero.mp hp)
      subst this
      exact h1 [] (by simp)
    | succ n ih =>
      intro p hp
      rcases slash_cases p with h | ⟨e, q, he, rfl⟩
      · exact h1 p h
      · refine h2 e q he (ih q ?_)
        simp only [List.length_append, List.length_cons] at hp
        omega
  exact fun p => key p.length p (le_refl _)

theorem run_append_slash (rooted : Bool) (p : List Char) :
    ∀ (q : List Char) (s : List Char × Nat),
      run rooted (p ++ '/' :: q) s = run rooted q (run rooted p s) := by
  induction p using slash_induction with
  | h1 e he =>
    intro q s
    rw [run_elem_slash rooted e q s he, run_elem_last rooted e s he]
  | h2 e p he ih =>
    intro q s
    rw [List.append_assoc, List.cons_append, run_elem_slash rooted e _ s he, ih,
      run_elem_slash rooted e p s he]

theorem run_name (rooted : Bool) (n : List Char) (s : List Char × Nat) (hn : IsName n) :
    run rooted n s = pushName rooted n s := by
  rw [run_elem_last rooted n s hn.2.1]
  simp [stepElem, hn.1, hn.2.2.1, hn.2.2.2]

theorem snocElem_ne_nil (t x : List Char) (hx : x ≠ []) : snocElem t x ≠ [] := by
  unfold snocElem
  split_ifs <;> simp [hx]

theorem Valid.eq_init {rooted : Bool} {s : List Char × Nat} {t : List Char}
    (h : Valid rooted s t) (ht : t = []) : s = initState rooted := by
  cases h with
  | init => rfl
  | dots s t _ _ _ => exact absurd ht (snocElem_ne_nil _ _ (by simp))
  | name s t n _ hn => exact absurd ht (snocElem_ne_nil _ _ hn.1)

theorem Valid.render {rooted : Bool} {s : List Char × Nat} {t : List Char}
    (h : Valid rooted s t) : s.1.reverse = (if rooted then ['/'] else []) ++ t := by
  induction h with
  | init => cases rooted <;> simp [initState]
  | dots s t _ hr hl ih =>
    subst hr
    simp only [Bool.false_eq_true, if_false, List.nil_append] at ih ⊢
    have hlen : s.1.length = t.length := by rw [← List.length_reverse, ih]
    by_cases ht : t = []
    · subst ht
      have : s.1 = [] := List.length_eq_zero.mp (by simpa using hlen)
      simp [pushDots, snocElem, this]
    · have hpos : 0 < s.1.length := by
        rw [hlen]; exact List.length_pos.mpr ht
      simp [pushDots, snocElem, ht, hpos, ih]
  | name s t n _ hn ih =>
    have hlen : s.1.length = (if rooted then 1 else 0) + t.length := by
      rw [← List.length_reverse, ih]
      cases rooted
      · simp
      · simp
        omega
    by_cases ht : t = []
    · subst ht
      cases rooted
      · have h0 : s.1.length = 0 := by simpa using hlen
        simp [pushName, snocElem, h0, List.length_eq_zero.mp h0]
      · have h1 : s.1.length = 1 := by simpa using hlen
        simp only [if_true, List.append_nil] at ih
        simp [pushName, snocElem, h1, ih]
    · have hpos : 0 < t.length := List.length_pos.mpr ht
      cases rooted
      · have h0 : s.1.length ≠ 0 := by simp at hlen; omega
        simp only [Bool.false_eq_true, if_false, List.nil_append] at ih
        simp [pushName, snocElem, ht, h0, ih]
      · have h1 : s.1.length ≠ 1 := by simp at hlen; omega
        simp only [if_true] at ih
        simp [pushName, snocElem, ht, h1, ih]

theorem Valid.dd_le {rooted : Bool} {s : List Char × Nat} {t : List Char}
    (h : Valid rooted s t) : s.2 ≤ s.1.length ∧ (rooted = true → s.2 = 1) := by
  induction h with
  | init => cases rooted <;> simp [initState]
  | dots s t _ hr hl ih =>
    subst hr
    simp [pushDots]
  | name s t n _ hn ih =>
    refine ⟨?_, ih.2⟩
    simp only [pushName, List.length_append, List.length_reverse]
    split_ifs <;> (try simp only [List.length_cons]) <;> omega

theorem Valid.head_ne {rooted : Bool} {s : List Char × Nat} {t : List Char}
    (h : Valid rooted s t) : t.head? ≠ some '/' := by
  induction h with
  | init => simp
  | dots s t _ _ _ ih =>
    unfold snocElem
    split_ifs with ht
    · simp
    · cases t with
      | nil => exact absurd rfl ht
      | cons c t => simpa using ih
  | name s t n _ hn ih =>
    unfold snocElem
    split_ifs with ht
    · cases n with
      | nil => simp
      | cons c n =>
        have : c ≠ '/' := fun hc => hn.2.1 (by simp [hc])
        simpa using this
    · cases t with
      | nil => exact absurd rfl ht
      | cons c t => simpa using ih

theorem Valid.idem {rooted : Bool} {s : List Char × Nat} {t : List Char}
    (h : Valid rooted s t) : run rooted t (initState rooted) = s := by
  induction h with
  | init => exact run_nil _ _
  | dots s t hv hr hl ih =>
    have hstep : stepElem rooted ['.', '.'] s = pushDots s := by
      simp [stepElem, dotdotStep, hl, hr]
    unfold snocElem
    split_ifs with ht
    · have hs := hv.eq_init ht
      rw [run_elem_last rooted _ _ (by simp), ← hs, hstep]
    · rw [run_append_slash, ih, run_elem_last rooted _ _ (by simp), hstep]
  | name s t n hv hn ih =>
    unfold snocElem
    split_ifs with ht
    · have hs := hv.eq_init ht
      rw [run_name rooted _ _ hn, ← hs]
    · rw [run_append_slash, ih, run_name rooted _ _ hn]

theorem unwind_name (dd : Nat) (X : List Char) (hX : dd ≤ X.length) :
    ∀ m : List Char, '/' ∉ m → m ≠ [] →
      unwind dd (m ++ X) = if dd < X.length then unwind dd X else X
  | [], _, h => absurd rfl h
  | [c], hm, _ => by
    have hc : c ≠ '/' := fun h => hm (by simp [h])
    simp [unwind, hc]
  | c :: d :: m, hm, _ => by
    have hc : c ≠ '/' := fun h => hm (by simp [h])
    have hm2 : '/' ∉ d :: m := fun h => hm (List.mem_cons_of_mem _ h)
    have ih := unwind_name dd X hX (d :: m) hm2 (by simp)
    have hlt : dd < (d :: m ++ X).length := by simp; omega
    rw [List.cons_append, unwind, if_pos ⟨hlt, hc⟩, ih]

theorem Valid.unwind_pushName {rooted : Bool} {s : List Char × Nat} {t : List Char}
    (h : Valid rooted s t) (n : List Char) (hn : IsName n) :
    unwind s.2 (pushName rooted n s).1 = s.1 := by
  obtain ⟨hle, hr⟩ := h.dd_le
  have hn0 : n.reverse ≠ [] := by simpa using hn.1
  have hns : '/' ∉ n.reverse := by simpa using hn.2.1
  simp only [pushName]
  split_ifs with hsep
  · rw [unwind_name s.2 ('/' :: s.1) (by simp; omega) n.reverse hns hn0]
    simp [unwind]
    omega
  · rw [unwind_name s.2 s.1 hle n.reverse hns hn0]
    have : ¬ s.2 < s.1.length := by
      cases rooted
      · have h0 : s.1.length = 0 := by simpa using hsep
        omega
      · have h1 : s.1.length = 1 := by simpa using hsep
        have := hr rfl
        omega
    simp [this]

theorem Valid.step {rooted : Bool} {s : List Char × Nat} {t : List Char}
    (h : Valid rooted s t) (e : List Char) (he : '/' ∉ e) :
    ∃ t2, Valid rooted (stepElem rooted e s) t2 := by
  unfold stepElem
  split_ifs with h1 h2
  · exact ⟨t, h⟩
  · unfold dotdotStep
    split_ifs with hlt hr
    · cases h with
      | init => cases rooted <;> simp [initState] at hlt
      | dots s t _ _ _ => simp [pushDots] at hlt
      | name s t n hv hn =>
        refine ⟨t, ?_⟩
        have : (pushName rooted n s).2 = s.2 := rfl
        rw [this, hv.unwind_pushName n hn]
        exact hv
    · exact ⟨_, Valid.dots s t h hr (by have := h.dd_le.1; omega)⟩
    · exact ⟨t, h⟩
  · have hn : IsName e := by
      simp only [not_or] at h1
      exact ⟨h1.1, he, h1.2, h2⟩
    exact ⟨_, Valid.name s t e h hn⟩

theorem Valid.run {rooted : Bool} (p : List Char) :
    ∀ (s : List Char × Nat) (t : List Char), Valid rooted s t →
      ∃ t2, Valid rooted (filepath.run rooted p s) t2 := by
  induction p using slash_induction with
  | h1 e he =>
    intro s t h
    rw [run_elem_last rooted e s he]
    exact h.step e he
  | h2 e q he ih =>
    intro s t h
    rw [run_elem_slash rooted e q s he]
    obtain ⟨t2, h2⟩ := h.step e he
    exact ih _ t2 h2

theorem cleanChars_eq (p : List Char) (hp : p ≠ []) : cleanChars p = finish (stateOf p) := by
  have hlen : (body p).length ≤ p.length := by
    unfold body
    split_ifs
    · simp
    · exact le_refl _
  have hf := cleanLoop_fuel (isRooted p) p.length (body p).length (body p)
    (initState (isRooted p)).1 (initState (isRooted p)).2 hlen (le_refl _)
  simp only [cleanChars, if_neg hp, finish, stateOf, run]
  rw [← hf]
  rfl

theorem finish_ne_nil (s : List Char × Nat) : finish s ≠ [] := by
  unfold finish
  split_ifs with h
  · simp
  · simpa using h

theorem cleanChars_ne_nil (p : List Char) : cleanChars p ≠ [] := by
  by_cases hp : p = []
  · simp [cleanChars, hp]
  · rw [cleanChars_eq p hp]
    exact finish_ne_nil _

theorem stateOf_valid (p : List Char) : ∃ t, Valid (isRooted p) (stateOf p) t :=
  Valid.run (body p) _ [] Valid.init

theorem Valid.finish_eq {rooted : Bool} {s : List Char × Nat} {t : List Char}
    (h : Valid rooted s t) :
    finish s = if rooted then '/' :: t else if t = [] then ['.'] else t := by
  have hr := h.render
  unfold finish
  cases rooted
  · simp only [Bool.false_eq_true, if_false, List.nil_append] at hr ⊢
    by_cases ht : t = []
    · have : s.1 = [] := by
        rw [ht] at hr
        simpa using hr
      simp [this, ht]
    · have : s.1 ≠ [] := by
        intro h0
        rw [h0] at hr
        exact ht (by simpa using hr.symm)
      simp [this, ht, hr]
  · simp only [if_true] at hr ⊢
    have : s.1 ≠ [] := by
      intro h0
      rw [h0] at hr
      simp at hr
    simp [this, hr]

theorem Valid.stateOf_finish {rooted : Bool} {s : List Char × Nat} {t : List Char}
    (h : Valid rooted s t) : isRooted (finish s) = rooted ∧ stateOf (finish s) = s := by
  have hf := h.finish_eq
  cases rooted
  · by_cases ht : t = []
    · have hs := h.eq_init ht
      simp only [Bool.false_eq_true, if_false, ht, if_true] at hf
      have hr : isRooted (finish s) = false := by rw [hf]; decide
      refine ⟨hr, ?_⟩
      rw [stateOf, hr, body, hr, hf, hs]
      simp only [Bool.false_eq_true, if_false]
      rw [run_elem_last false ['.'] _ (by simp)]
      simp [stepElem]
    · simp only [Bool.false_eq_true, if_false, ht] at hf
      have hr : isRooted (finish s) = false := by
        rw [hf]
        have := h.head_ne
        simpa [isRooted] using this
      refine ⟨hr, ?_⟩
      rw [stateOf, hr, body, hr, hf]
      exact h.idem
  · simp only [if_true] at hf
    have hr : isRooted (finish s) = true := by rw [hf]; simp [isRooted]
    refine ⟨hr, ?_⟩
    rw [stateOf, hr, body, hr, hf]
    exact h.idem

theorem stateOf_append (p q : List Char) (hp : p ≠ []) :
    isRooted (p ++ '/' :: q) = isRooted p ∧
    stateOf (p ++ '/' :: q) = run (isRooted p) q (stateOf p) := by
  cases p with
  | nil => exact absurd rfl hp
  | cons c p =>
    have hr : isRooted (c :: p ++ '/' :: q) = isRooted (c :: p) := by simp [isRooted]
    refine ⟨hr, ?_⟩
    have hb : body (c :: p ++ '/' :: q) = body (c :: p) ++ '/' :: q := by
      unfold body
      rw [hr]
      split_ifs <;> simp
    rw [stateOf, hr, hb, run_append_slash]
    rfl

theorem cleanChars_clean_append (p q : List Char) (hp : p ≠ []) :
    cleanChars (cleanChars p ++ '/' :: q) = cleanChars (p ++ '/' :: q) := by
  obtain ⟨t, hv⟩ := stateOf_valid p
  obtain ⟨h1, h2⟩ := hv.stateOf_finish
  have hc := cleanChars_eq p hp
  have e1 : cleanChars (cleanChars p ++ '/' :: q)
      = finish (stateOf (cleanChars p ++ '/' :: q)) := cleanChars_eq _ (by simp)
  have e2 : cleanChars (p ++ '/' :: q) = finish (stateOf (p ++ '/' :: q)) :=
    cleanChars_eq _ (by simp)
  rw [e1, e2, (stateOf_append _ q (cleanChars_ne_nil p)).2, (stateOf_append p q hp).2, hc,
    h1, h2]

theorem cleanChars_snoc (p t : List Char) (hp : p ≠ [])
    (hv : Valid (isRooted p) (stateOf p) t) (n : List Char) (hn : IsName n) :
    cleanChars (p ++ '/' :: n) = (if isRooted p then ['/'] else []) ++ snocElem t n := by
  have hv2 := Valid.name _ t n hv hn
  rw [cleanChars_eq _ (by simp), (stateOf_append p n hp).2, run_name _ _ _ hn, hv2.finish_eq]
  have := snocElem_ne_nil t n hn.1
  cases isRooted p <;> simp [this]

theorem cleanChars_name (n : List Char) (hn : IsName n) : cleanChars n = n := by
  have hr : isRooted n = false := by
    cases n with
    | nil => rfl
    | cons c n =>
      have : c ≠ '/' := fun h => hn.2.1 (by simp [h])
      simpa [isRooted] using this
  have hv := Valid.name _ [] n (@Valid.init false) hn
  rw [cleanChars_eq n hn.1, stateOf, hr, body, hr]
  simp only [Bool.false_eq_true, if_false]
  rw [run_name _ _ _ hn, hv.finish_eq]
  simp [snocElem, hn.1]

theorem lastElem_append (x n : List Char) (hn : '/' ∉ n)
    (hx : x = [] ∨ x.getLast? = some '/') : lastElem (x ++ n) = n := by
  have h1 : '/' ∉ n.reverse := by simpa using hn
  have h2 : x.reverse = [] ∨ x.reverse.head? = some '/' := by
    rcases hx with h | h
    · exact Or.inl (by simp [h])
    · exact Or.inr (by simpa using h)
  have := (takeWhile_elem n.reverse x.reverse h1 h2).1
  simp only [lastElem, List.reverse_append, this, List.reverse_reverse]

theorem joinChars_pair (a b : List Char) (ha : a ≠ []) :
    joinChars [a, b] = cleanChars (a ++ '/' :: b) := by
  simp [joinChars, ha, List.intercalate]

theorem joinChars_nil_cons (l : List (List Char)) : joinChars ([] :: l) = joinChars l := by
  simp [joinChars]

theorem joinChars_single (a : List Char) (ha : a ≠ []) : joinChars [a] = cleanChars a := by
  simp [joinChars, ha, List.intercalate]

theorem joinChars_triple (a b c : List Char) (ha : a ≠ []) :
    joinChars [a, b, c] = cleanChars ((a ++ '/' :: b) ++ '/' :: c) := by
  simp [joinChars, ha, List.intercalate]

theorem joinChars_nested (a b c : List Char) :
    joinChars [joinChars [a, b], c] = joinChars [a, b, c] := by
  by_cases ha : a = []
  · subst ha
    rw [joinChars_nil_cons, joinChars_nil_cons]
    by_cases hb : b = []
    · subst hb
      rw [joinChars_nil_cons]
      simp [joinChars]
    · rw [joinChars_single b hb, joinChars_pair _ _ (cleanChars_ne_nil b), joinChars_pair _ _ hb,
        cleanChars_clean_append b c hb]
  · rw [joinChars_pair a b ha, joinChars_pair _ _ (cleanChars_ne_nil _), joinChars_triple a b c ha,
      cleanChars_clean_append _ c (by simp)]

theorem cleanChars_snoc_valid (p n t : List Char) (hp : p ≠ []) (hn : IsName n)
    (hv : Valid (isRooted p) (stateOf p) t) (ht : t ≠ []) :
    cleanChars (p ++ '/' :: n) = cleanChars p ++ '/' :: n := by
  have hv2 := Valid.name _ t n hv hn
  rw [cleanChars_eq _ (by simp), (stateOf_append p n hp).2, run_name _ _ _ hn, hv2.finish_eq,
    cleanChars_eq p hp, hv.finish_eq]
  cases isRooted p <;> simp [snocElem, ht]

theorem name_not_rooted (n : List Char) (hn : IsName n) : isRooted n = false := by
  cases n with
  | nil => rfl
  | cons c n =>
    have : c ≠ '/' := fun h => hn.2.1 (by simp [h])
    simpa [isRooted] using this

theorem joinChars_sub (a m n : List Char) (hm : IsName m) (hn : IsName n) :
    joinChars [joinChars [a, m], n] = joinChars [a, m] ++ '/' :: n := by
  by_cases ha : a = []
  · subst ha
    have hr := name_not_rooted m hm
    have hv : Valid (isRooted m) (stateOf m) (snocElem [] m) := by
      have hv0 := Valid.name _ [] m (@Valid.init false) hm
      rw [← run_name _ _ _ hm] at hv0
      rw [stateOf, hr, body, hr]
      exact hv0
    rw [joinChars_nil_cons, joinChars_single m hm.1, cleanChars_name m hm,
      joinChars_pair _ _ hm.1, cleanChars_snoc_valid m n _ hm.1 hn hv (snocElem_ne_nil _ _ hm.1),
      cleanChars_name m hm]
  · obtain ⟨t, hv0⟩ := stateOf_valid a
    have hv : Valid (isRooted (a ++ '/' :: m)) (stateOf (a ++ '/' :: m)) (snocElem t m) := by
      rw [(stateOf_append a m ha).1, (stateOf_append a m ha).2, run_name _ _ _ hm]
      exact Valid.name _ t m hv0 hm
    rw [joinChars_pair a m ha, joinChars_pair _ _ (cleanChars_ne_nil _),
      cleanChars_clean_append _ n (by simp),
      cleanChars_snoc_valid _ n _ (by simp) hn hv (snocElem_ne_nil _ _ hm.1)]

theorem joinChars_lastElem (a n : List Char) (hn : IsName n) :
    lastElem (joinChars [a, n]) = n := by
  by_cases ha : a = []
  · subst ha
    rw [joinChars_nil_cons, joinChars_single n hn.1, cleanChars_name n hn]
    exact lastElem_append [] n hn.2.1 (Or.inl rfl)
  · obtain ⟨t, hv⟩ := stateOf_valid a
    rw [joinChars_pair a n ha, cleanChars_snoc a t ha hv n hn]
    have hpre : ∀ x : List Char, (x = [] ∨ x = ['/']) → lastElem (x ++ snocElem t n) = n := by
      intro x hx
      unfold snocElem
      by_cases ht : t = []
      · rw [if_pos ht]
        refine lastElem_append x n hn.2.1 ?_
        rcases hx with rfl | rfl <;> simp
      · rw [if_neg ht]
        have hre : x ++ (t ++ '/' :: n) = (x ++ t ++ ['/']) ++ n := by simp
        rw [hre]
        exact lastElem_append _ n hn.2.1 (Or.inr (by simp))
    apply hpre
    cases isRooted a <;> simp

theorem joinChars_dir (a : List Char) :
    ∃ X : List Char, ∀ n, IsName n → joinChars [a, n] = X ++ n := by
  by_cases ha : a = []
  · subst ha
    refine ⟨[], ?_⟩
    intro n hn
    rw [joinChars_nil_cons, joinChars_single n hn.1, cleanChars_name n hn, List.nil_append]
  · obtain ⟨t, hv⟩ := stateOf_valid a
    refine ⟨(if isRooted a then ['/'] else []) ++ (if t = [] then [] else t ++ ['/']), ?_⟩
    intro n hn
    rw [joinChars_pair a n ha, cleanChars_snoc a t ha hv n hn]
    unfold snocElem
    split_ifs <;> simp

theorem Join_nested (a b c : String) : Join [Join [a, b], c] = Join [a, b, c] := by
  simp only [Join, List.map_cons, List.map_nil, joinChars_nested]

theorem Join_sub (a m n : String) (hm : IsName m.data) (hn : IsName n.data) :
    (Join [Join [a, m], n]).data = (Join [a, m]).data ++ '/' :: n.data := by
  simp only [Join, List.map_cons, List.map_nil]
  exact joinChars_sub a.data m.data n.data hm hn

theorem Join_lastElem (a n : String) (hn : IsName n.data) :
    lastElem (Join [a, n]).data = n.data := by
  simp only [Join, List.map_cons, List.map_nil]
  exact joinChars_lastElem a.data n.data hn

theorem Join_ne (a b m n : String) (hm : IsName m.data) (hn : IsName n.data) (hmn : m ≠ n) :
    Join [a, m] ≠ Join [b, n] := by
  intro h
  have h1 := Join_lastElem a m hm
  have h2 := Join_lastElem b n hn
  rw [h, h2] at h1
  exact hmn (String.ext h1.symm)

theorem Join_not_below (a m n : String) (hm : IsName m.data) (hn : IsName n.data)
    (h : n.data ≠ m.data ++ '/' :: n.data) : Join [a, n] ≠ Join [a, m, n] := by
  intro heq
  have h1 := congrArg String.data heq
  rw [← Join_nested, Join_sub a m n hm hn] at h1
  obtain ⟨X, hX⟩ := joinChars_dir a.data
  simp only [Join, List.map_cons, List.map_nil] at h1
  rw [hX _ hn, hX _ hm, List.append_assoc] at h1
  exact h (List.append_cancel_left h1)

end filepath

theorem name_lockFile : filepath.IsName lockFile.data := by decide

theorem name_sshDir : filepath.IsName sshDir.data := by decide

theorem name_authorizedKeysFile : filepath.IsName authorizedKeysFile.data := by decide

theorem name_authorizedKeysDir : filepath.IsName authorizedKeysDir.data := by decide

theorem name_stageDir : filepath.IsName stageDir.data := by decide

theorem name_stageFile : filepath.IsName stageFile.data := by decide

theorem name_preservedKeysName : filepath.IsName preservedKeysName.data := by decide

theorem lock_ne_authKeysDirPath (u : provider.User) : lockFilePath u ≠ authKeysDirPath u :=
  filepath.Join_ne _ _ _ _ name_lockFile name_authorizedKeysDir (by decide)

theorem lock_ne_authKeysFilePath (u : provider.User) (v : user.User) :
    lockFilePath u ≠ authKeysFilePath v :=
  filepath.Join_ne _ _ _ _ name_lockFile name_authorizedKeysFile (by decide)

theorem lock_ne_stageDirPath (u : provider.User) : lockFilePath u ≠ stageDirPath u :=
  filepath.Join_ne _ _ _ _ name_lockFile name_stageDir (by decide)

theorem lock_ne_stageFilePath (u : provider.User) : lockFilePath u ≠ stageFilePath u :=
  filepath.Join_ne _ _ _ _ name_lockFile name_stageFile (by decide)

theorem lowestFree_not_mem (used : List Nat) : lowestFree used ∉ used := by
  unfold lowestFree
  cases h : (List.range (used.length + 1)).find? (fun n => decide (n ∉ used)) with
  | some n =>
    have := List.find?_some h
    simpa using this
  | none =>
    exfalso
    rw [List.find?_eq_none] at h
    have hsub : List.range (used.length + 1) ⊆ used := by
      intro x hx
      have := h x hx
      simpa using this
    have hle := (List.subperm_of_subset (List.nodup_range _) hsub).length_le
    simp at hle

theorem openLock_eq (u : provider.User) (name : String) (perm : Nat) (w : World) :
    as_user.OpenFile u name (syscall.O_CREAT ||| syscall.O_RDONLY) perm w =
      match w.fs name with
      | some (.unresolvable e) =>
        (.error (.PathError "open" name e), w.log (.OpenFile u.Name name 64 perm none))
      | some .dir =>
        (.error (.PathError "open" name syscall.EISDIR),
          w.log (.OpenFile u.Name name 64 perm none))
      | some (.file _ _) =>
        (.ok ⟨lowestFree (w.fds.map Prod.fst), name⟩,
          ({ w with fds := (lowestFree (w.fds.map Prod.fst), name) :: w.fds }).log
            (.OpenFile u.Name name 64 perm (some (lowestFree (w.fds.map Prod.fst)))))
      | none =>
        (.ok ⟨lowestFree (w.fds.map Prod.fst), name⟩,
          ({ w.put name (.file [] perm) with
              fds := (lowestFree (w.fds.map Prod.fst), name) :: w.fds }).log
            (.OpenFile u.Name name 64 perm (some (lowestFree (w.fds.map Prod.fst))))) := by
  have e1 : (64 : Nat) &&& 128 = 0 := by decide
  have e2 : (64 : Nat) &&& 512 = 0 := by decide
  have e3 : (64 : Nat) &&& 3 = 0 := by decide
  have e4 : (64 : Nat) &&& 64 = 64 := by decide
  unfold as_user.OpenFile
  cases h : w.fs name with
  | none => simp [syscall.O_CREAT, syscall.O_RDONLY, World.put, e4]
  | some n =>
    cases n <;>
      simp [syscall.O_CREAT, syscall.O_RDONLY, syscall.O_EXCL, syscall.O_TRUNC,
        syscall.O_ACCMODE, e1, e2, e3, e4]

theorem Frame.trans {w1 w2 w3 : World} (h1 : Frame w1 w2) (h2 : Frame w2 w3) : Frame w1 w3 := by
  obtain ⟨a1, b1, c1, e1, t1, q1⟩ := h1
  obtain ⟨a2, b2, c2, e2, t2, q2⟩ := h2
  refine ⟨a2.trans a1, b2.trans b1, c2.trans c1, e1 ++ e2, ?_, ?_⟩
  · rw [t2, t1, List.append_assoc]
  · intro e he
    rcases List.mem_append.mp he with h | h
    · exact q1 e h
    · exact q2 e h

theorem Frame.log (w : World) (e : Event) (he : e.noDescriptor = true) : Frame w (w.log e) :=
  ⟨rfl, rfl, rfl, [e], rfl, by simpa using he⟩

theorem Frame.of_eq {w w2 : World} (e : Event) (he : e.noDescriptor = true)
    (h1 : w2.fds = w.fds) (h2 : w2.locks = w.locks) (h3 : w2.flockErr = w.flockErr)
    (h4 : w2.trace = w.trace ++ [e]) : Frame w w2 :=
  ⟨h1, h2, h3, [e], h4, by simpa using he⟩

theorem Stat_frame (name : String) (w : World) : Frame w (os.Stat name w).2 := by
  unfold os.Stat
  split <;> exact Frame.log _ _ rfl

theorem RemoveAll_frame (name : String) (w : World) : Frame w (os.RemoveAll name w).2 := by
  unfold os.RemoveAll
  split
  · split <;> exact Frame.log _ _ rfl
  · exact Frame.of_eq (.RemoveAll name) rfl rfl rfl rfl rfl

theorem Mkdir_frame (name : String) (perm : Nat) (w : World) :
    Frame w (os.Mkdir name perm w).2 := by
  unfold os.Mkdir
  split
  · exact Frame.of_eq (.Mkdir name perm) rfl rfl rfl rfl rfl
  · exact Frame.log _ _ rfl
  · exact Frame.log _ _ rfl

theorem ReadFile_frame (name : String) (w : World) : Frame w (os.ReadFile name w).2 := by
  unfold os.ReadFile
  split <;> exact Frame.log _ _ rfl

theorem WriteFile_frame (name : String) (data : List Nat) (perm : Nat) (w : World) :
    Frame w (os.WriteFile name data perm w).2 := by
  unfold os.WriteFile
  split
  · exact Frame.of_eq (.WriteFile name perm) rfl rfl rfl rfl rfl
  · exact Frame.of_eq (.WriteFile name perm) rfl rfl rfl rfl rfl
  · exact Frame.log _ _ rfl
  · exact Frame.log _ _ rfl

theorem Rename_frame (a b : String) (w : World) : Frame w (os.Rename a b w).2 := by
  unfold os.Rename
  simp only []
  split
  all_goals first
    | exact Frame.log _ _ rfl
    | (split
       · exact Frame.log _ _ rfl
       · exact Frame.of_eq (.Rename a b) rfl rfl rfl rfl rfl)

theorem Remove_frame (name : String) (w : World) : Frame w (os.Remove name w).2 := by
  unfold os.Remove
  split
  · exact Frame.log _ _ rfl
  · exact Frame.log _ _ rfl
  · exact Frame.log _ _ rfl
  · exact Frame.of_eq (.Remove name) rfl rfl rfl rfl rfl

theorem installStaged_frame (u : provider.User) (legacy : Bool) (w : World) :
    Frame w (installStaged u legacy w).2 ∧
      Shaped (authKeysDirPath u) (installStaged u legacy w).1 := by
  unfold installStaged
  have f1 := Rename_frame (stageDirPath u) (authKeysDirPath u) w
  rcases hR : os.Rename (stageDirPath u) (authKeysDirPath u) w with ⟨e1, w1⟩
  rw [hR] at f1
  cases e1 with
  | some err => exact ⟨f1, Or.inl ⟨rfl, by simp⟩⟩
  | none =>
    cases legacy with
    | false => exact ⟨f1, Or.inr rfl⟩
    | true =>
      simp only [if_true]
      have f2 := Remove_frame (authKeysFilePath (osUser u)) w1
      rcases hM : os.Remove (authKeysFilePath (osUser u)) w1 with ⟨e2, w2⟩
      rw [hM] at f2
      cases e2 with
      | some err => exact ⟨f1.trans f2, Or.inl ⟨rfl, by simp⟩⟩
      | none => exact ⟨f1.trans f2, Or.inr rfl⟩

theorem createAuthorizedKeysDir_frame (u : provider.User) (w : World) :
    Frame (w.log (.createAuthorizedKeysDir u.HomeDir)) (createAuthorizedKeysDir u w).2 ∧
      Shaped (authKeysDirPath u) (createAuthorizedKeysDir u w).1 := by
  unfold createAuthorizedKeysDir
  have f1 := RemoveAll_frame (stageDirPath u) (w.log (.createAuthorizedKeysDir u.HomeDir))
  rcases h1 : os.RemoveAll (stageDirPath u) (w.log (.createAuthorizedKeysDir u.HomeDir))
    with ⟨e1, w1⟩
  rw [h1] at f1
  cases e1 with
  | some err => exact ⟨f1, Or.inl ⟨rfl, by simp⟩⟩
  | none =>
    dsimp only
    have f2 := Mkdir_frame (stageDirPath u) 0o700 w1
    rcases h2 : os.Mkdir (stageDirPath u) 0o700 w1 with ⟨e2, w2⟩
    rw [h2] at f2
    cases e2 with
    | some err => exact ⟨f1.trans f2, Or.inl ⟨rfl, by simp⟩⟩
    | none =>
      dsimp only
      have f3 := Stat_frame (authKeysFilePath (osUser u)) w2
      rcases h3 : os.Stat (authKeysFilePath (osUser u)) w2 with ⟨r3, w3⟩
      rw [h3] at f3
      have f13 := (f1.trans f2).trans f3
      cases r3 with
      | error err =>
        dsimp only
        split
        · have := installStaged_frame u false w3
          exact ⟨f13.trans this.1, this.2⟩
        · exact ⟨f13, Or.inl ⟨rfl, by simp⟩⟩
      | ok fi =>
        dsimp only
        split
        · have := installStaged_frame u false w3
          exact ⟨f13.trans this.1, this.2⟩
        · have f4 := ReadFile_frame (authKeysFilePath (osUser u)) w3
          rcases h4 : os.ReadFile (authKeysFilePath (osUser u)) w3 with ⟨r4, w4⟩
          rw [h4] at f4
          cases r4 with
          | error err => exact ⟨f13.trans f4, Or.inl ⟨rfl, by simp⟩⟩
          | ok data =>
            dsimp only
            have f5 := WriteFile_frame (filepath.Join [stageDirPath u, preservedKeysName])
              data 0o600 w4
            rcases h5 : os.WriteFile (filepath.Join [stageDirPath u, preservedKeysName])
              data 0o600 w4 with ⟨e5, w5⟩
            rw [h5] at f5
            cases e5 with
            | some err => exact ⟨(f13.trans f4).trans f5, Or.inl ⟨rfl, by simp⟩⟩
            | none =>
              have := installStaged_frame u true w5
              exact ⟨((f13.trans f4).trans f5).trans this.1, this.2⟩

theorem opendir_frame (dir : String) (w : World) :
    (opendir dir w).2 = w.log (.Stat dir) ∧ Shaped dir (opendir dir w).1 := by
  unfold opendir os.Stat
  cases h : w.fs dir with
  | none => exact ⟨rfl, Or.inl ⟨rfl, by simp⟩⟩
  | some n =>
    cases n with
    | file d p => exact ⟨rfl, Or.inl ⟨rfl, by simp [os.FileInfo.IsDir]⟩⟩
    | dir => exact ⟨rfl, Or.inr rfl⟩
    | unresolvable e => exact ⟨rfl, Or.inl ⟨rfl, by simp⟩⟩

theorem opendir_result (dir : String) (w : World) :
    (opendir dir w).1 =
      match w.fs dir with
      | none => (none, some (.PathError "stat" dir syscall.ENOENT))
      | some (.unresolvable e) => (none, some (.PathError "stat" dir e))
      | some (.file _ _) => (none, some (fmt.Errorf "%q is not a directory" [dir]))
      | some .dir => (some { path := dir, user := none, lock := none }, none) := by
  unfold opendir os.Stat
  cases h : w.fs dir with
  | none => rfl
  | some n => cases n <;> rfl

theorem acquireLock_eq (u : provider.User) (w : World) :
    acquireLock u w =
      match w.fs (lockFilePath u), w.flockErr with
      | some (.unresolvable e), _ =>
        ((none, some (.PathError "open" (lockFilePath u) e)),
          w.log (.OpenFile u.Name (lockFilePath u) 64 0o600 none))
      | some .dir, _ =>
        ((none, some (.PathError "open" (lockFilePath u) syscall.EISDIR)),
          w.log (.OpenFile u.Name (lockFilePath u) 64 0o600 none))
      | some (.file _ _), some e =>
        ((none, some (.Errno e)),
          { w with
            locks := w.locks.filter (fun d => d ≠ lowestFree (w.fds.map Prod.fst))
            trace := w.trace ++
              [.OpenFile u.Name (lockFilePath u) 64 0o600 (some (lowestFree (w.fds.map Prod.fst))),
               .Flock (lowestFree (w.fds.map Prod.fst)) syscall.LOCK_EX false,
               .Close (lowestFree (w.fds.map Prod.fst))] })
      | some (.file _ _), none =>
        ((some ⟨lowestFree (w.fds.map Prod.fst), lockFilePath u⟩, none),
          { w with
            fds := (lowestFree (w.fds.map Prod.fst), lockFilePath u) :: w.fds
            locks := lowestFree (w.fds.map Prod.fst) ::
              w.locks.filter (fun d => d ≠ lowestFree (w.fds.map Prod.fst))
            trace := w.trace ++
              [.OpenFile u.Name (lockFilePath u) 64 0o600 (some (lowestFree (w.fds.map Prod.fst))),
               .Flock (lowestFree (w.fds.map Prod.fst)) syscall.LOCK_EX true] })
      | none, some e =>
        ((none, some (.Errno e)),
          { w.put (lockFilePath u) (.file [] 0o600) with
            locks := w.locks.filter (fun d => d ≠ lowestFree (w.fds.map Prod.fst))
            trace := w.trace ++
              [.OpenFile u.Name (lockFilePath u) 64 0o600 (some (lowestFree (w.fds.map Prod.fst))),
               .Flock (lowestFree (w.fds.map Prod.fst)) syscall.LOCK_EX false,
               .Close (lowestFree (w.fds.map Prod.fst))] })
      | none, none =>
        ((some ⟨lowestFree (w.fds.map Prod.fst), lockFilePath u⟩, none),
          { w.put (lockFilePath u) (.file [] 0o600) with
            fds := (lowestFree (w.fds.map Prod.fst), lockFilePath u) :: w.fds
            locks := lowestFree (w.fds.map Prod.fst) ::
              w.locks.filter (fun d => d ≠ lowestFree (w.fds.map Prod.fst))
            trace := w.trace ++
              [.OpenFile u.Name (lockFilePath u) 64 0o600 (some (lowestFree (w.fds.map Prod.fst))),
               .Flock (lowestFree (w.fds.map Prod.fst)) syscall.LOCK_EX true] }) := by
  have hfresh := lowestFree_not_mem (w.fds.map Prod.fst)
  have hfil : ∀ (a : Nat) (b : String), (a, b) ∈ w.fds →
      ¬ a = lowestFree (w.fds.map Prod.fst) := by
    intro a b hab h2
    exact hfresh (by rw [← h2]; exact List.mem_map_of_mem Prod.fst hab)
  have c1 : (2 : Nat) ^^^ (2 &&& 4) = 2 := by decide
  unfold acquireLock
  rw [openLock_eq]
  cases h : w.fs (lockFilePath u) with
  | none =>
    cases h2 : w.flockErr with
    | none =>
      simp [syscall.Flock, os.File.Fd, World.log, World.put, syscall.LOCK_EX,
        syscall.LOCK_NB, syscall.LOCK_SH, syscall.LOCK_UN, c1, h2]
    | some e =>
      simp [syscall.Flock, os.File.Fd, os.File.Close, World.log, World.put, syscall.LOCK_EX,
        syscall.LOCK_NB, syscall.LOCK_SH, syscall.LOCK_UN, c1, h2]
      exact hfil
  | some n =>
    cases n with
    | unresolvable e => rfl
    | dir => rfl
    | file d p =>
      cases h2 : w.flockErr with
      | none =>
        simp [syscall.Flock, os.File.Fd, World.log, syscall.LOCK_EX,
          syscall.LOCK_NB, syscall.LOCK_SH, syscall.LOCK_UN, c1, h2]
      | some e =>
        simp [syscall.Flock, os.File.Fd, os.File.Close, World.log, syscall.LOCK_EX,
          syscall.LOCK_NB, syscall.LOCK_SH, syscall.LOCK_UN, c1, h2]
        exact hfil

theorem opendir_eq (dir : String) (w : World) :
    opendir dir w =
      ((match w.fs dir with
        | none => (none, some (.PathError "stat" dir syscall.ENOENT))
        | some (.unresolvable e) => (none, some (.PathError "stat" dir e))
        | some (.file _ _) => (none, some (fmt.Errorf "%q is not a directory" [dir]))
        | some .dir => (some { path := dir, user := none, lock := none }, none)),
       w.log (.Stat dir)) := by
  rw [← opendir_result, ← (opendir_frame dir w).1]

theorem openUser_lock_err (u : provider.User) (c : Bool) (w : World) (e : GoError)
    (h : (acquireLock u w).1.2 = some e) :
    openUser u c w = (some (none, some e), (acquireLock u w).2) := by
  unfold openUser
  rcases hA : acquireLock u w with ⟨⟨l, e2⟩, w1⟩
  rw [hA] at h
  simp only at h
  subst h
  rfl

theorem openUser_dir (u : provider.User) (c : Bool) (w w1 : World) (l : Option os.File)
    (h : acquireLock u w = ((l, none), w1)) (hd : w1.fs (authKeysDirPath u) = some .dir) :
    openUser u c w =
      (some (some { path := authKeysDirPath u, user := some u, lock := l }, none),
        w1.log (.Stat (authKeysDirPath u))) := by
  unfold openUser
  rw [h]
  simp [opendir_eq, hd, os.IsNotExist]

theorem openUser_notdir (u : provider.User) (c : Bool) (w w1 : World) (l : Option os.File)
    (d : List Nat) (p : Nat)
    (h : acquireLock u w = ((l, none), w1))
    (hd : w1.fs (authKeysDirPath u) = some (.file d p)) :
    openUser u c w =
      (some (none, some (fmt.Errorf "%q is not a directory" [authKeysDirPath u])),
        (os.File.Close l (w1.log (.Stat (authKeysDirPath u)))).2) := by
  unfold openUser
  rw [h]
  simp [opendir_eq, hd, os.IsNotExist, fmt.Errorf, os.underlyingError]

theorem openUser_staterr (u : provider.User) (c : Bool) (w w1 : World) (l : Option os.File)
    (e : Nat) (h : acquireLock u w = ((l, none), w1))
    (hd : w1.fs (authKeysDirPath u) = some (.unresolvable e))
    (hc : c = false ∨ e ≠ syscall.ENOENT) :
    openUser u c w =
      (some (none, some (.PathError "stat" (authKeysDirPath u) e)),
        (os.File.Close l (w1.log (.Stat (authKeysDirPath u)))).2) := by
  unfold openUser
  rw [h]
  rcases hc with hc | hc
  · simp [opendir_eq, hd, os.IsNotExist, os.underlyingError, hc]
  · simp [opendir_eq, hd, os.IsNotExist, os.underlyingError, hc]

theorem openUser_absent (u : provider.User) (w w1 : World) (l : Option os.File)
    (h : acquireLock u w = ((l, none), w1))
    (hd : w1.fs (authKeysDirPath u) = none) :
    openUser u false w =
      (some (none, some (.PathError "stat" (authKeysDirPath u) syscall.ENOENT)),
        (os.File.Close l (w1.log (.Stat (authKeysDirPath u)))).2) := by
  unfold openUser
  rw [h]
  simp [opendir_eq, hd, os.IsNotExist, os.underlyingError]

theorem openUser_create (u : provider.User) (w w1 : World) (l : Option os.File)
    (h : acquireLock u w = ((l, none), w1))
    (hd : w1.fs (authKeysDirPath u) = none ∨
      w1.fs (authKeysDirPath u) = some (.unresolvable syscall.ENOENT)) :
    openUser u true w =
      match createAuthorizedKeysDir u (w1.log (.Stat (authKeysDirPath u))) with
      | ((_, some err), w3) => (some (none, some err), (os.File.Close l w3).2)
      | ((some a, none), w3) => (some (some { a with lock := l, user := some u }, none), w3)
      | ((none, none), w3) => (none, w3) := by
  unfold openUser
  rw [h]
  rcases hC : createAuthorizedKeysDir u (w1.log (.Stat (authKeysDirPath u)))
    with ⟨⟨a, e⟩, w3⟩
  rcases hd with hd | hd
  · cases e <;> cases a <;>
      simp [opendir_eq, hd, os.IsNotExist, os.underlyingError, hC]
  · cases e <;> cases a <;>
      simp [opendir_eq, hd, os.IsNotExist, os.underlyingError, hC]

theorem newEvents_append (w w2 : World) (evs : List Event) (h : w2.trace = w.trace ++ evs) :
    newEvents w w2 = evs := by
  simp [newEvents, h]

theorem acquireLock_fs (u : provider.User) (w : World) :
    (∀ k, k ≠ lockFilePath u → (acquireLock u w).2.fs k = w.fs k) ∧
    (w.fs (lockFilePath u) ≠ none → (acquireLock u w).2.fs = w.fs) ∧
    (w.fs (lockFilePath u) = none →
      (acquireLock u w).2.fs (lockFilePath u) = some (.file [] 0o600)) := by
  rw [acquireLock_eq]
  cases h : w.fs (lockFilePath u) with
  | none =>
    cases h2 : w.flockErr <;>
    · refine ⟨?_, ?_, ?_⟩
      · intro k hk
        simp [World.put, hk]
      · intro hn
        exact absurd rfl hn
      · intro _
        simp [World.put]
  | some n =>
    cases n <;> cases h2 : w.flockErr <;>
    · refine ⟨?_, ?_, ?_⟩
      · intro k _
        rfl
      · intro _
        rfl
      · intro hn
        exact absurd hn (by simp)

theorem acquireLock_ok (u : provider.User) (w : World) (h : (acquireLock u w).1.2 = none) :
    ∃ w1, acquireLock u w =
        ((some ⟨lowestFree (w.fds.map Prod.fst), lockFilePath u⟩, none), w1) ∧
      w1.fds = (lowestFree (w.fds.map Prod.fst), lockFilePath u) :: w.fds ∧
      w1.locks = lowestFree (w.fds.map Prod.fst) ::
        w.locks.filter (fun d => d ≠ lowestFree (w.fds.map Prod.fst)) ∧
      w1.trace = w.trace ++
        [.OpenFile u.Name (lockFilePath u) 64 0o600 (some (lowestFree (w.fds.map Prod.fst))),
         .Flock (lowestFree (w.fds.map Prod.fst)) syscall.LOCK_EX true] := by
  rw [acquireLock_eq] at h ⊢
  cases h1 : w.fs (lockFilePath u) with
  | none =>
    cases h2 : w.flockErr with
    | none => exact ⟨_, rfl, rfl, rfl, rfl⟩
    | some e => simp [h1, h2] at h
  | some n =>
    cases n with
    | file d p =>
      cases h2 : w.flockErr with
      | none => exact ⟨_, rfl, rfl, rfl, rfl⟩
      | some e => simp [h1, h2] at h
    | dir => simp [h1] at h
    | unresolvable e => simp [h1] at h

theorem acquireLock_failed (u : provider.User) (w : World) (e : GoError)
    (h : (acquireLock u w).1.2 = some e) :
    (acquireLock u w).1.1 = none ∧ (acquireLock u w).2.fds = w.fds ∧
    ((∃ n, e = .PathError "open" (lockFilePath u) n ∧
        (acquireLock u w).2.trace = w.trace ++
          [.OpenFile u.Name (lockFilePath u) 64 0o600 none]) ∨
     (∃ n, e = .Errno n ∧
        (acquireLock u w).2.trace = w.trace ++
          [.OpenFile u.Name (lockFilePath u) 64 0o600 (some (lowestFree (w.fds.map Prod.fst))),
           .Flock (lowestFree (w.fds.map Prod.fst)) syscall.LOCK_EX false,
           .Close (lowestFree (w.fds.map Prod.fst))] ∧
        lowestFree (w.fds.map Prod.fst) ∉ (acquireLock u w).2.locks)) := by
  rw [acquireLock_eq] at h ⊢
  cases h1 : w.fs (lockFilePath u) with
  | none =>
    cases h2 : w.flockErr with
    | none => simp [h1, h2] at h
    | some n =>
      simp only [h1, h2, Option.some.injEq] at h
      subst h
      exact ⟨rfl, rfl, Or.inr ⟨n, rfl, rfl, by simp⟩⟩
  | some nd =>
    cases nd with
    | file d p =>
      cases h2 : w.flockErr with
      | none => simp [h1, h2] at h
      | some n =>
        simp only [h1, h2, Option.some.injEq] at h
        subst h
        exact ⟨rfl, rfl, Or.inr ⟨n, rfl, rfl, by simp⟩⟩
    | dir =>
      simp only [h1, Option.some.injEq] at h
      subst h
      exact ⟨rfl, rfl, Or.inl ⟨_, rfl, rfl⟩⟩
    | unresolvable n =>
      simp only [h1, Option.some.injEq] at h
      subst h
      exact ⟨rfl, rfl, Or.inl ⟨_, rfl, rfl⟩⟩

/-- C9. `acquireLock` opens `lockFilePath u` with `O_CREAT|O_RDONLY` and mode 0600: an absent
lock file is created empty, an existing one is left as it is, and no other name changes.
It then calls `flock` on the descriptor with exactly `LOCK_EX` (no `LOCK_NB` bit).  It
returns the open file exactly when both calls succeed; when the open fails it returns the
error of the open, when `flock` fails the error of `flock` (the descriptor closed again),
both times with no file. -/
theorem C9_acquireLock (u : provider.User) (w : World) :
    (∀ k, k ≠ lockFilePath u → (acquireLock u w).2.fs k = w.fs k) ∧
    (w.fs (lockFilePath u) = none →
      (acquireLock u w).2.fs (lockFilePath u) = some (.file [] 0o600)) ∧
    (w.fs (lockFilePath u) ≠ none → (acquireLock u w).2.fs = w.fs) ∧
    syscall.LOCK_EX &&& syscall.LOCK_NB = 0 ∧
    ((∃ err, (acquireLock u w).1 = (none, some err) ∧
        (as_user.OpenFile u (lockFilePath u) (syscall.O_CREAT ||| syscall.O_RDONLY) 0o600
          w).1 = .error err ∧
        newEvents w (acquireLock u w).2 =
          [.OpenFile u.Name (lockFilePath u) (syscall.O_CREAT ||| syscall.O_RDONLY) 0o600 none]) ∨
     (∃ f err, (acquireLock u w).1 = (none, some err) ∧
        (as_user.OpenFile u (lockFilePath u) (syscall.O_CREAT ||| syscall.O_RDONLY) 0o600
          w).1 = .ok f ∧
        (syscall.Flock f.Fd syscall.LOCK_EX
          (as_user.OpenFile u (lockFilePath u) (syscall.O_CREAT ||| syscall.O_RDONLY) 0o600
            w).2).1 = some err ∧
        newEvents w (acquireLock u w).2 =
          [.OpenFile u.Name (lockFilePath u) (syscall.O_CREAT ||| syscall.O_RDONLY) 0o600
             (some f.fd),
           .Flock f.fd syscall.LOCK_EX false, .Close f.fd] ∧
        (∀ name, (f.fd, name) ∉ (acquireLock u w).2.fds) ∧
        f.fd ∉ (acquireLock u w).2.locks) ∨
     (∃ f, (acquireLock u w).1 = (some f, none) ∧ f.name = lockFilePath u ∧
        (as_user.OpenFile u (lockFilePath u) (syscall.O_CREAT ||| syscall.O_RDONLY) 0o600
          w).1 = .ok f ∧
        (syscall.Flock f.Fd syscall.LOCK_EX
          (as_user.OpenFile u (lockFilePath u) (syscall.O_CREAT ||| syscall.O_RDONLY) 0o600
            w).2).1 = none ∧
        newEvents w (acquireLock u w).2 =
          [.OpenFile u.Name (lockFilePath u) (syscall.O_CREAT ||| syscall.O_RDONLY) 0o600
             (some f.fd),
           .Flock f.fd syscall.LOCK_EX true] ∧
        (f.fd, f.name) ∈ (acquireLock u w).2.fds ∧ f.fd ∈ (acquireLock u w).2.locks)) := by
  obtain ⟨f1, f2, f3⟩ := acquireLock_fs u w
  refine ⟨f1, f3, f2, by decide, ?_⟩
  have hflag : syscall.O_CREAT ||| syscall.O_RDONLY = 64 := by decide
  have c1 : (2 : Nat) ^^^ (2 &&& 4) = 2 := by decide
  have hfresh := lowestFree_not_mem (w.fds.map Prod.fst)
  have hnot : ∀ n, (lowestFree (w.fds.map Prod.fst), n) ∉ w.fds := fun n hmem =>
    hfresh (List.mem_map_of_mem Prod.fst hmem)
  rw [acquireLock_eq, openLock_eq, hflag]
  cases h : w.fs (lockFilePath u) with
  | none =>
    cases h2 : w.flockErr with
    | none =>
      refine Or.inr (Or.inr ⟨⟨lowestFree (w.fds.map Prod.fst), lockFilePath u⟩, rfl, rfl, rfl,
        ?_, ?_, ?_, ?_⟩)
      · simp [syscall.Flock, os.File.Fd, World.log, World.put, syscall.LOCK_EX,
          syscall.LOCK_NB, syscall.LOCK_SH, syscall.LOCK_UN, c1, h2]
      · simp [newEvents, World.put]
      · simp [World.put]
      · simp
    | some e =>
      refine Or.inr (Or.inl ⟨⟨lowestFree (w.fds.map Prod.fst), lockFilePath u⟩, .Errno e,
        rfl, rfl, ?_, ?_, ?_, ?_⟩)
      · simp [syscall.Flock, os.File.Fd, World.log, World.put, syscall.LOCK_EX,
          syscall.LOCK_NB, syscall.LOCK_SH, syscall.LOCK_UN, c1, h2]
      · simp [newEvents, World.put]
      · exact hnot
      · simp
  | some n =>
    cases n with
    | unresolvable e => exact Or.inl ⟨_, rfl, rfl, by simp [newEvents, World.log]⟩
    | dir => exact Or.inl ⟨_, rfl, rfl, by simp [newEvents, World.log]⟩
    | file d p =>
      cases h2 : w.flockErr with
      | none =>
        refine Or.inr (Or.inr ⟨⟨lowestFree (w.fds.map Prod.fst), lockFilePath u⟩, rfl, rfl,
          rfl, ?_, ?_, ?_, ?_⟩)
        · simp [syscall.Flock, os.File.Fd, World.log, syscall.LOCK_EX,
            syscall.LOCK_NB, syscall.LOCK_SH, syscall.LOCK_UN, c1, h2]
        · simp [newEvents]
        · simp
        · simp
      | some e =>
        refine Or.inr (Or.inl ⟨⟨lowestFree (w.fds.map Prod.fst), lockFilePath u⟩, .Errno e,
          rfl, rfl, ?_, ?_, ?_, ?_⟩)
        · simp [syscall.Flock, os.File.Fd, World.log, syscall.LOCK_EX,
            syscall.LOCK_NB, syscall.LOCK_SH, syscall.LOCK_UN, c1, h2]
        · simp [newEvents]
        · exact hnot
        · simp

/-- C9, at concrete inputs: a fresh home directory (lock file created, lock granted), an
existing lock file (left as it is), and a refused `flock`. -/
theorem C9_acquireLock_witness :
    (acquireLock exUser exFresh).2.fs (lockFilePath exUser) = some (.file [] 0o600) ∧
    (acquireLock exUser exMigrated).2.fs = exMigrated.fs ∧
    (acquireLock exUser exFresh).1 = (some ⟨3, lockFilePath exUser⟩, none) ∧
    (acquireLock exUser exInterrupted).1 = (none, some (.Errno 4)) :=
  ⟨(C9_acquireLock exUser exFresh).2.1 (by decide),
   (C9_acquireLock exUser exMigrated).2.2.1 (by decide), by decide, by decide⟩

theorem Close_open (f : os.File) (w : World) (h : (f.fd, f.name) ∈ w.fds) :
    (os.File.Close (some f) w).2 =
      { w with
        fds := w.fds.filter (fun e => e.1 ≠ f.fd)
        locks := w.locks.filter (fun d => d ≠ f.fd)
        trace := w.trace ++ [.Close f.fd] } := by
  simp [os.File.Close, h, World.log]

theorem filter_fresh (fds : List (Nat × String)) (fd : Nat) (name : String)
    (h : fd ∉ fds.map Prod.fst) :
    ((fd, name) :: fds).filter (fun e => decide (e.1 ≠ fd)) = fds := by
  have : fds.filter (fun e => decide (e.1 ≠ fd)) = fds := by
    rw [List.filter_eq_self]
    intro a ha
    have : a.1 ≠ fd := fun h2 => h (by rw [← h2]; exact List.mem_map_of_mem _ ha)
    simpa using this
  simpa using this

/-- What a call of `openUser` does once the lock is held: the events after the two of
`acquireLock` start with the `stat` of the directory path, and the call ends in one of
three ways: the directory was there; the open failed without migration (lock file
closed); or the migration was entered (lock file closed when it failed). -/
theorem openUser_after_lock (u : provider.User) (c : Bool) (w : World)
    (hl : (acquireLock u w).1.2 = none) :
    ∃ evs, newEvents w (openUser u c w).2 =
        [.OpenFile u.Name (lockFilePath u) 64 0o600 (some (lowestFree (w.fds.map Prod.fst))),
         .Flock (lowestFree (w.fds.map Prod.fst)) syscall.LOCK_EX true,
         .Stat (authKeysDirPath u)] ++ evs ∧
      (((openUser u c w).1 = some (some ⟨authKeysDirPath u, some u,
            some ⟨lowestFree (w.fds.map Prod.fst), lockFilePath u⟩⟩, none) ∧
          evs = [] ∧ (acquireLock u w).2.fs (authKeysDirPath u) = some .dir ∧
          (openUser u c w).2.fds = (acquireLock u w).2.fds ∧
          (openUser u c w).2.locks = (acquireLock u w).2.locks ∧
          (openUser u c w).2.fs = (acquireLock u w).2.fs) ∨
       (∃ err, (openUser u c w).1 = some (none, some err) ∧
          (opendir (authKeysDirPath u) (acquireLock u w).2).1.2 = some err ∧
          (c = false ∨ os.IsNotExist (some err) = false) ∧
          evs = [.Close (lowestFree (w.fds.map Prod.fst))] ∧
          (openUser u c w).2.fds = w.fds ∧
          lowestFree (w.fds.map Prod.fst) ∉ (openUser u c w).2.locks ∧
          (openUser u c w).2.fs = (acquireLock u w).2.fs) ∨
       (c = true ∧
          os.IsNotExist (opendir (authKeysDirPath u) (acquireLock u w).2).1.2 = true ∧
          ∃ mig, (∀ e ∈ mig, e.noDescriptor = true) ∧
            ((∃ err, (openUser u c w).1 = some (none, some err) ∧
                evs = .createAuthorizedKeysDir u.HomeDir :: mig ++
                  [.Close (lowestFree (w.fds.map Prod.fst))] ∧
                (openUser u c w).2.fds = w.fds ∧
                lowestFree (w.fds.map Prod.fst) ∉ (openUser u c w).2.locks) ∨
             ((openUser u c w).1 = some (some ⟨authKeysDirPath u, some u,
                  some ⟨lowestFree (w.fds.map Prod.fst), lockFilePath u⟩⟩, none) ∧
                evs = .createAuthorizedKeysDir u.HomeDir :: mig ∧
                (openUser u c w).2.fds = (acquireLock u w).2.fds ∧
                (openUser u c w).2.locks = (acquireLock u w).2.locks)))) := by
  obtain ⟨w1, hA, hfds, hlocks, htr⟩ := acquireLock_ok u w hl
  have hfresh := lowestFree_not_mem (w.fds.map Prod.fst)
  rw [hA]
  dsimp only
  have hmem : ∀ w2 : World, w2.fds = w1.fds →
      ((⟨lowestFree (w.fds.map Prod.fst), lockFilePath u⟩ : os.File).fd,
        (⟨lowestFree (w.fds.map Prod.fst), lockFilePath u⟩ : os.File).name) ∈ w2.fds := by
    intro w2 h2
    rw [h2, hfds]
    exact List.mem_cons_self _ _
  -- the three ways to fail after the stat without entering the migration
  have hfail : ∀ err : GoError,
      openUser u c w = (some (none, some err),
        (os.File.Close (some ⟨lowestFree (w.fds.map Prod.fst), lockFilePath u⟩)
          (w1.log (.Stat (authKeysDirPath u)))).2) →
      (opendir (authKeysDirPath u) w1).1.2 = some err →
      (c = false ∨ os.IsNotExist (some err) = false) →
      ∃ evs, newEvents w (openUser u c w).2 =
        [.OpenFile u.Name (lockFilePath u) 64 0o600 (some (lowestFree (w.fds.map Prod.fst))),
         .Flock (lowestFree (w.fds.map Prod.fst)) syscall.LOCK_EX true,
         .Stat (authKeysDirPath u)] ++ evs ∧
        (∃ err, (openUser u c w).1 = some (none, some err) ∧
          (opendir (authKeysDirPath u) w1).1.2 = some err ∧
          (c = false ∨ os.IsNotExist (some err) = false) ∧
          evs = [.Close (lowestFree (w.fds.map Prod.fst))] ∧
          (openUser u c w).2.fds = w.fds ∧
          lowestFree (w.fds.map Prod.fst) ∉ (openUser u c w).2.locks ∧
          (openUser u c w).2.fs = w1.fs) := by
    intro err hO hod hc
    rw [hO, Close_open _ (w1.log (.Stat (authKeysDirPath u))) (hmem _ rfl)]
    refine ⟨_, ?_, err, rfl, hod, hc, rfl, ?_, ?_, rfl⟩
    · simp [newEvents, World.log, htr]
    · simp only [World.log, hfds]
      exact filter_fresh _ _ _ hfresh
    · simp [World.log]
  -- the migration is entered
  have hmig : (w1.fs (authKeysDirPath u) = none ∨
        w1.fs (authKeysDirPath u) = some (.unresolvable syscall.ENOENT)) → c = true →
      ∃ evs, newEvents w (openUser u c w).2 =
        [.OpenFile u.Name (lockFilePath u) 64 0o600 (some (lowestFree (w.fds.map Prod.fst))),
         .Flock (lowestFree (w.fds.map Prod.fst)) syscall.LOCK_EX true,
         .Stat (authKeysDirPath u)] ++ evs ∧
        (c = true ∧ os.IsNotExist (opendir (authKeysDirPath u) w1).1.2 = true ∧
          ∃ mig, (∀ e ∈ mig, e.noDescriptor = true) ∧
            ((∃ err, (openUser u c w).1 = some (none, some err) ∧
                evs = .createAuthorizedKeysDir u.HomeDir :: mig ++
                  [.Close (lowestFree (w.fds.map Prod.fst))] ∧
                (openUser u c w).2.fds = w.fds ∧
                lowestFree (w.fds.map Prod.fst) ∉ (openUser u c w).2.locks) ∨
             ((openUser u c w).1 = some (some ⟨authKeysDirPath u, some u,
                  some ⟨lowestFree (w.fds.map Prod.fst), lockFilePath u⟩⟩, none) ∧
                evs = .createAuthorizedKeysDir u.HomeDir :: mig ∧
                (openUser u c w).2.fds = w1.fds ∧
                (openUser u c w).2.locks = w1.locks))) := by
    intro hd hc
    subst hc
    have hne : os.IsNotExist (opendir (authKeysDirPath u) w1).1.2 = true := by
      rcases hd with hd | hd <;> simp [opendir_eq, hd, os.IsNotExist, os.underlyingError]
    rw [openUser_create u w w1 _ hA hd]
    obtain ⟨hF, hS⟩ := createAuthorizedKeysDir_frame u (w1.log (.Stat (authKeysDirPath u)))
    rcases hC : createAuthorizedKeysDir u (w1.log (.Stat (authKeysDirPath u)))
      with ⟨⟨a, e⟩, w3⟩
    rw [hC] at hF hS
    obtain ⟨h3f, h3l, _, mig, h3t, h3q⟩ := hF
    have h3t2 : w3.trace = w.trace ++
        ([.OpenFile u.Name (lockFilePath u) 64 0o600 (some (lowestFree (w.fds.map Prod.fst))),
          .Flock (lowestFree (w.fds.map Prod.fst)) syscall.LOCK_EX true,
          .Stat (authKeysDirPath u)] ++ .createAuthorizedKeysDir u.HomeDir :: mig) := by
      rw [h3t]
      simp [World.log, htr]
    rcases hS with ⟨ha, he⟩ | hS
    · simp only at ha he
      subst ha
      cases e with
      | none => exact absurd rfl he
      | some err =>
        dsimp only
        rw [Close_open _ w3 (hmem w3 h3f)]
        refine ⟨_, ?_, rfl, hne, mig, h3q, Or.inl ⟨err, rfl, rfl, ?_, ?_⟩⟩
        · simp [newEvents, h3t2]
        · have h3f2 : w3.fds = (lowestFree (w.fds.map Prod.fst), lockFilePath u) :: w.fds :=
            h3f.trans hfds
          show List.filter _ w3.fds = w.fds
          rw [h3f2]
          exact filter_fresh _ _ _ hfresh
        · simp
    · simp only [Prod.mk.injEq] at hS
      obtain ⟨rfl, rfl⟩ := hS
      dsimp only
      refine ⟨_, ?_, rfl, hne, mig, h3q, Or.inr ⟨rfl, rfl, h3f, h3l⟩⟩
      simp [newEvents, h3t2]
  cases hd : w1.fs (authKeysDirPath u) with
  | none =>
    cases c with
    | false =>
      obtain ⟨evs, h1, h2⟩ := hfail _ (openUser_absent u w w1 _ hA hd)
        (by simp [opendir_eq, hd]) (Or.inl rfl)
      exact ⟨evs, h1, Or.inr (Or.inl h2)⟩
    | true =>
      obtain ⟨evs, h1, h2⟩ := hmig (Or.inl hd) rfl
      exact ⟨evs, h1, Or.inr (Or.inr h2)⟩
  | some n =>
    cases n with
    | dir =>
      rw [openUser_dir u c w w1 _ hA hd]
      exact ⟨[], by simp [newEvents, World.log, htr], Or.inl ⟨rfl, rfl, rfl, rfl, rfl, rfl⟩⟩
    | file d p =>
      obtain ⟨evs, h1, h2⟩ := hfail _ (openUser_notdir u c w w1 _ d p hA hd)
        (by simp [opendir_eq, hd]) (Or.inr (by simp [os.IsNotExist, fmt.Errorf, os.underlyingError]))
      exact ⟨evs, h1, Or.inr (Or.inl h2)⟩
    | unresolvable e =>
      by_cases hc : c = true ∧ e = syscall.ENOENT
      · obtain ⟨evs, h1, h2⟩ := hmig (Or.inr (by rw [hd, hc.2])) hc.1
        exact ⟨evs, h1, Or.inr (Or.inr h2)⟩
      · have hc2 : c = false ∨ e ≠ syscall.ENOENT := by
          cases c
          · exact Or.inl rfl
          · exact Or.inr (fun h => hc ⟨rfl, h⟩)
        obtain ⟨evs, h1, h2⟩ := hfail _ (openUser_staterr u c w w1 _ e hA hd hc2)
          (by simp [opendir_eq, hd])
          (by
            rcases hc2 with h | h
            · exact Or.inl h
            · exact Or.inr (by simp [os.IsNotExist, os.underlyingError, h]))
        exact ⟨evs, h1, Or.inr (Or.inl h2)⟩

/-- C1 (as stated, refuted), at two inputs where the lock is acquired and nothing exists at
the store path.  In a fresh home directory the call creates the lock file, so the files
after the call are not the files before it.  Where `~/.ssh` is a regular file, the `stat`
of the store path fails with `ENOTDIR`, and the error returned does not satisfy
`os.IsNotExist`. -/
theorem C1_counterexample :
    ((acquireLock exUser exFresh).1.2 = none ∧
      exFresh.fs (authKeysDirPath exUser) = none ∧
      exFresh.fs (lockFilePath exUser) = none ∧
      (openUser exUser false exFresh).2.fs (lockFilePath exUser) = some (.file [] 0o600) ∧
      (openUser exUser false exFresh).2.fs ≠ exFresh.fs) ∧
    ((acquireLock exUser exSshFile).1.2 = none ∧
      exSshFile.fs (sshDirPath (osUser exUser)) = some (.file [] 0o644) ∧
      exSshFile.fs (authKeysDirPath exUser) = some (.unresolvable syscall.ENOTDIR) ∧
      (openUser exUser false exSshFile).1 =
        some (none, some (.PathError "stat" (authKeysDirPath exUser) syscall.ENOTDIR)) ∧
      os.IsNotExist (some (.PathError "stat" (authKeysDirPath exUser) syscall.ENOTDIR))
        = false) := by
  refine ⟨⟨by decide, by decide, by decide, by decide, ?_⟩,
    by decide, by decide, by decide, by decide, by decide⟩
  intro h
  have h2 := congrFun h (lockFilePath exUser)
  revert h2
  decide

theorem Stat_not_exist (name : String) (w : World) (err : GoError)
    (hst : (os.Stat name w).1 = .error err) (hne : os.IsNotExist (some err) = true) :
    err = .PathError "stat" name syscall.ENOENT ∧
    (w.fs name = none ∨ w.fs name = some (.unresolvable syscall.ENOENT)) := by
  unfold os.Stat at hst
  cases h : w.fs name with
  | none =>
    simp only [h, Except.error.injEq] at hst
    exact ⟨hst.symm, Or.inl rfl⟩
  | some n =>
    cases n with
    | file d p => simp [h] at hst
    | dir => simp [h] at hst
    | unresolvable e =>
      simp only [h, Except.error.injEq] at hst
      subst hst
      have he : e = syscall.ENOENT := by
        simpa [os.IsNotExist, os.underlyingError] using hne
      subst he
      exact ⟨rfl, Or.inr rfl⟩

/-- C1 (amended). When lock acquisition succeeds and the `stat` of the `authorized_keys.d`
path fails with an error satisfying `os.IsNotExist` (`ENOENT`), `openUser u false` returns
no handle and that error; the file namespace is unchanged at every name but the lock file,
wholly unchanged when the lock file existed, and otherwise differs by the lock file created
empty with mode 0600. -/
theorem C1_open_absent_without_create (u : provider.User) (w : World) (err : GoError)
    (hl : (acquireLock u w).1.2 = none)
    (hst : (os.Stat (authKeysDirPath u) w).1 = .error err)
    (hne : os.IsNotExist (some err) = true) :
    (openUser u false w).1 = some (none, some err) ∧
    (∀ k, k ≠ lockFilePath u → (openUser u false w).2.fs k = w.fs k) ∧
    (w.fs (lockFilePath u) ≠ none → (openUser u false w).2.fs = w.fs) ∧
    (w.fs (lockFilePath u) = none →
      (openUser u false w).2.fs (lockFilePath u) = some (.file [] 0o600)) := by
  obtain ⟨f1, f2, f3⟩ := acquireLock_fs u w
  obtain ⟨herr, hd⟩ := Stat_not_exist _ _ _ hst hne
  subst herr
  have hd1 : (acquireLock u w).2.fs (authKeysDirPath u) = w.fs (authKeysDirPath u) :=
    f1 _ (Ne.symm (lock_ne_authKeysDirPath u))
  have hod : (opendir (authKeysDirPath u) (acquireLock u w).2).1.2
      = some (.PathError "stat" (authKeysDirPath u) syscall.ENOENT) := by
    rcases hd with hd | hd <;> simp [opendir_eq, hd1, hd]
  obtain ⟨evs, _, h⟩ := openUser_after_lock u false w hl
  rcases h with ⟨_, _, hdir, _⟩ | ⟨err2, hr, herr, _, _, _, _, hfs⟩ | ⟨hc, _⟩
  · rw [hd1] at hdir
    rcases hd with hd | hd <;> rw [hd] at hdir <;> exact absurd hdir (by simp)
  · rw [hod] at herr
    have herr2 : err2 = .PathError "stat" (authKeysDirPath u) syscall.ENOENT :=
      (Option.some.inj herr).symm
    subst herr2
    refine ⟨hr, ?_, ?_, ?_⟩
    · intro k hk
      rw [hfs]
      exact f1 k hk
    · intro hn
      rw [hfs]
      exact f2 hn
    · intro hn
      rw [hfs]
      exact f3 hn
  · exact absurd hc (by simp)

/-- C1 (amended), at concrete inputs: a fresh home directory (the lock file is created),
and a home without `~/.ssh` where the lock file exists and the store path fails to resolve
with `ENOENT` (nothing changes). -/
theorem C1_open_absent_without_create_witness :
    ((acquireLock exUser exFresh).1.2 = none ∧
      (os.Stat (authKeysDirPath exUser) exFresh).1 =
        .error (.PathError "stat" (authKeysDirPath exUser) syscall.ENOENT) ∧
      (openUser exUser false exFresh).1 =
        some (none, some (.PathError "stat" (authKeysDirPath exUser) syscall.ENOENT)) ∧
      (∀ k, k ≠ lockFilePath exUser → (openUser exUser false exFresh).2.fs k = exFresh.fs k) ∧
      (exFresh.fs (lockFilePath exUser) ≠ none →
        (openUser exUser false exFresh).2.fs = exFresh.fs) ∧
      (exFresh.fs (lockFilePath exUser) = none →
        (openUser exUser false exFresh).2.fs (lockFilePath exUser) = some (.file [] 0o600))) ∧
    (exNoSsh.fs (authKeysDirPath exUser) = some (.unresolvable syscall.ENOENT) ∧
      (openUser exUser false exNoSsh).1 =
        some (none, some (.PathError "stat" (authKeysDirPath exUser) syscall.ENOENT)) ∧
      (openUser exUser false exNoSsh).2.fs = exNoSsh.fs) :=
  ⟨⟨by decide, rfl,
    C1_open_absent_without_create exUser exFresh _ (by decide) rfl (by decide)⟩,
   by decide,
   (C1_open_absent_without_create exUser exNoSsh _ (by decide) rfl (by decide)).1,
   (C1_open_absent_without_create exUser exNoSsh _ (by decide) rfl (by decide)).2.2.1
     (by decide)⟩

/-- C2 (as stated, refuted). `authorized_keys.d` is a regular file, but the lock file cannot
be opened (its path is a directory): `openUser` returns the error of the open, not the
"is not a directory" error. -/
theorem C2_counterexample :
    exCollisionNoLock.fs (authKeysDirPath exUser) = some (.file [107, 101, 121] 0o644) ∧
    (openUser exUser true exCollisionNoLock).1 =
      some (none, some (.PathError "open" (lockFilePath exUser) syscall.EISDIR)) ∧
    (openUser exUser true exCollisionNoLock).1 ≠
      some (none, some (fmt.Errorf "%q is not a directory" [authKeysDirPath exUser])) := by
  refine ⟨by decide, by decide, by decide⟩

/-- C2 (amended). When lock acquisition succeeds and the `authorized_keys.d` path is a
regular file, `openUser u create` returns, for both values of `create`, no handle and the
"is not a directory" error, which is not a not-exist error; the migration is not entered;
the file is still there with the same content. -/
theorem C2_open_not_a_directory (u : provider.User) (create : Bool) (w : World)
    (d : List Nat) (p : Nat) (hl : (acquireLock u w).1.2 = none)
    (hd : w.fs (authKeysDirPath u) = some (.file d p)) :
    (openUser u create w).1 =
      some (none, some (fmt.Errorf "%q is not a directory" [authKeysDirPath u])) ∧
    os.IsNotExist (some (fmt.Errorf "%q is not a directory" [authKeysDirPath u])) = false ∧
    (∀ e ∈ newEvents w (openUser u create w).2, e.isCreate = false) ∧
    (openUser u create w).2.fs (authKeysDirPath u) = some (.file d p) := by
  obtain ⟨f1, _, _⟩ := acquireLock_fs u w
  have hd1 : (acquireLock u w).2.fs (authKeysDirPath u) = some (.file d p) := by
    rw [f1 _ (Ne.symm (lock_ne_authKeysDirPath u)), hd]
  have hod : (opendir (authKeysDirPath u) (acquireLock u w).2).1.2
      = some (fmt.Errorf "%q is not a directory" [authKeysDirPath u]) := by
    simp [opendir_eq, hd1]
  have hnot : os.IsNotExist (some (fmt.Errorf "%q is not a directory" [authKeysDirPath u]))
      = false := by
    simp [os.IsNotExist, fmt.Errorf, os.underlyingError]
  obtain ⟨evs, hev, h⟩ := openUser_after_lock u create w hl
  rcases h with ⟨_, _, hdir, _⟩ | ⟨err, hr, herr, _, hevs, _, _, hfs⟩ | ⟨_, hne, _⟩
  · rw [hd1] at hdir
    exact absurd hdir (by simp)
  · rw [hod] at herr
    have herr2 : err = fmt.Errorf "%q is not a directory" [authKeysDirPath u] :=
      (Option.some.inj herr).symm
    subst herr2
    refine ⟨hr, hnot, ?_, ?_⟩
    · intro e he
      rw [hev, hevs] at he
      simp only [List.cons_append, List.nil_append, List.mem_cons, List.mem_singleton,
        List.not_mem_nil, or_false] at he
      rcases he with rfl | rfl | rfl | rfl <;> rfl
    · rw [hfs]
      exact hd1
  · rw [hod, hnot] at hne
    exact absurd hne (by simp)

/-- C2 (amended), at a concrete input: the store path is a regular file, creation requested. -/
theorem C2_open_not_a_directory_witness :
    (acquireLock exUser exCollision).1.2 = none ∧
    exCollision.fs (authKeysDirPath exUser) = some (.file [107, 101, 121] 0o644) ∧
    (openUser exUser true exCollision).1 =
      some (none, some (fmt.Errorf "%q is not a directory" [authKeysDirPath exUser])) ∧
    os.IsNotExist (some (fmt.Errorf "%q is not a directory" [authKeysDirPath exUser]))
      = false ∧
    (∀ e ∈ newEvents exCollision (openUser exUser true exCollision).2, e.isCreate = false) ∧
    (openUser exUser true exCollision).2.fs (authKeysDirPath exUser)
      = some (.file [107, 101, 121] 0o644) :=
  ⟨by decide, by decide,
    C2_open_not_a_directory exUser true exCollision [107, 101, 121] 0o644 (by decide)
      (by decide)⟩

/-- C7. `openUser` always returns, with a handle exactly when the error is nil; a returned
handle carries the user, and as lock the file `acquireLock` returned in this call, which is
still open, still holds the lock, and was not closed during the call. -/
theorem C7_handle_iff_nil_error (u : provider.User) (create : Bool) (w : World) :
    ∃ r, (openUser u create w).1 = some r ∧ (r.1.isSome = true ↔ r.2 = none) ∧
      ∀ h, r.1 = some h →
        h.user = some u ∧ h.lock = (acquireLock u w).1.1 ∧
        ∃ f, h.lock = some f ∧ (f.fd, f.name) ∈ (openUser u create w).2.fds ∧
          f.fd ∈ (openUser u create w).2.locks ∧
          Event.Close f.fd ∉ newEvents w (openUser u create w).2 := by
  cases hl : (acquireLock u w).1.2 with
  | some e =>
    rw [openUser_lock_err u create w e hl]
    exact ⟨_, rfl, by simp, by simp⟩
  | none =>
    obtain ⟨w1, hA, hfds, hlocks, _⟩ := acquireLock_ok u w hl
    obtain ⟨evs, hev, h⟩ := openUser_after_lock u create w hl
    have hok : ∀ mig : List Event, (∀ e ∈ mig, e.noDescriptor = true) →
        newEvents w (openUser u create w).2 =
          [.OpenFile u.Name (lockFilePath u) 64 0o600 (some (lowestFree (w.fds.map Prod.fst))),
           .Flock (lowestFree (w.fds.map Prod.fst)) syscall.LOCK_EX true,
           .Stat (authKeysDirPath u)] ++ mig →
        (openUser u create w).1 = some (some ⟨authKeysDirPath u, some u,
            some ⟨lowestFree (w.fds.map Prod.fst), lockFilePath u⟩⟩, none) →
        (openUser u create w).2.fds = (acquireLock u w).2.fds →
        (openUser u create w).2.locks = (acquireLock u w).2.locks →
        ∃ r, (openUser u create w).1 = some r ∧ (r.1.isSome = true ↔ r.2 = none) ∧
          ∀ h, r.1 = some h →
            h.user = some u ∧ h.lock = (acquireLock u w).1.1 ∧
            ∃ f, h.lock = some f ∧ (f.fd, f.name) ∈ (openUser u create w).2.fds ∧
              f.fd ∈ (openUser u create w).2.locks ∧
              Event.Close f.fd ∉ newEvents w (openUser u create w).2 := by
      intro mig hq hevs hr hf hk
      refine ⟨_, hr, by simp, ?_⟩
      intro h hh
      simp only [Option.some.injEq] at hh
      subst hh
      refine ⟨rfl, by rw [hA], _, rfl, ?_, ?_, ?_⟩
      · rw [hf, hA, hfds]
        exact List.mem_cons_self _ _
      · rw [hk, hA, hlocks]
        exact List.mem_cons_self _ _
      · rw [hevs]
        intro hmem
        simp only [List.cons_append, List.nil_append, List.mem_cons, reduceCtorEq,
          false_or] at hmem
        have := hq _ hmem
        simp [Event.noDescriptor] at this
    rcases h with ⟨hr, hevs, _, hf, hk, _⟩ | ⟨err, hr, _⟩ |
        ⟨_, _, mig, hq, ⟨err, hr, _⟩ | ⟨hr, hevs, hf, hk⟩⟩
    · subst hevs
      exact hok [] (by simp) hev hr hf hk
    · exact ⟨_, hr, by simp, by simp⟩
    · exact ⟨_, hr, by simp, by simp⟩
    · subst hevs
      refine hok (.createAuthorizedKeysDir u.HomeDir :: mig) ?_ hev hr hf hk
      intro e he
      rcases List.mem_cons.mp he with rfl | h2
      · rfl
      · exact hq e h2

/-- C3. When `openUser` returns an error, the descriptor table is the one before the call:
every descriptor opened during the call has been closed during the call, is open under no
name afterwards, and holds no lock. -/
theorem C3_lock_released_on_error (u : provider.User) (create : Bool) (w : World)
    (r0 : Option sshAuthorizedKeysDir) (err : GoError)
    (h : (openUser u create w).1 = some (r0, some err)) :
    (openUser u create w).2.fds = w.fds ∧
    ∀ user name flag perm fd,
      Event.OpenFile user name flag perm (some fd) ∈ newEvents w (openUser u create w).2 →
        Event.Close fd ∈ newEvents w (openUser u create w).2 ∧
        (∀ n, (fd, n) ∉ (openUser u create w).2.fds) ∧
        fd ∉ (openUser u create w).2.locks := by
  have hfresh := lowestFree_not_mem (w.fds.map Prod.fst)
  have hnot : ∀ n, (lowestFree (w.fds.map Prod.fst), n) ∉ w.fds := fun n hmem =>
    hfresh (List.mem_map_of_mem Prod.fst hmem)
  cases hl : (acquireLock u w).1.2 with
  | some e =>
    obtain ⟨_, hfds, hcase⟩ := acquireLock_failed u w e hl
    rw [openUser_lock_err u create w e hl]
    refine ⟨hfds, ?_⟩
    intro user name flag perm fd hmem
    rcases hcase with ⟨n, _, htr⟩ | ⟨n, _, htr, hlk⟩
    · rw [newEvents_append _ _ _ htr] at hmem
      simp at hmem
    · rw [newEvents_append _ _ _ htr] at hmem ⊢
      simp only [List.mem_cons, Event.OpenFile.injEq, Option.some.injEq, reduceCtorEq,
        List.not_mem_nil, or_false] at hmem
      obtain ⟨_, _, _, _, rfl⟩ := hmem
      refine ⟨by simp, ?_, hlk⟩
      intro n2
      rw [hfds]
      exact hnot n2
  | none =>
    obtain ⟨evs, hev, hc⟩ := openUser_after_lock u create w hl
    have key : ∀ mig : List Event, (∀ e ∈ mig, e.noDescriptor = true) →
        evs = mig ++ [.Close (lowestFree (w.fds.map Prod.fst))] →
        (openUser u create w).2.fds = w.fds →
        lowestFree (w.fds.map Prod.fst) ∉ (openUser u create w).2.locks →
        (openUser u create w).2.fds = w.fds ∧
        ∀ user name flag perm fd,
          Event.OpenFile user name flag perm (some fd) ∈
              newEvents w (openUser u create w).2 →
            Event.Close fd ∈ newEvents w (openUser u create w).2 ∧
            (∀ n, (fd, n) ∉ (openUser u create w).2.fds) ∧
            fd ∉ (openUser u create w).2.locks := by
      intro mig hq hevs hf hk
      refine ⟨hf, ?_⟩
      intro user name flag perm fd hmem
      rw [hev, hevs] at hmem ⊢
      simp only [List.cons_append, List.nil_append, List.mem_cons, Event.OpenFile.injEq,
        Option.some.injEq, reduceCtorEq, false_or, List.mem_append, List.mem_singleton,
        or_false] at hmem
      rcases hmem with ⟨_, _, _, _, rfl⟩ | hmem | hmem
      · refine ⟨by simp, ?_, hk⟩
        intro n2
        rw [hf]
        exact hnot n2
      · have := hq _ hmem
        simp [Event.noDescriptor] at this
      · simp at hmem
    rcases hc with ⟨hr, _⟩ | ⟨e2, _, _, _, hevs, hf, hk, _⟩ |
        ⟨_, _, mig, hq, ⟨e2, _, hevs, hf, hk⟩ | ⟨hr, _⟩⟩
    · rw [hr] at h
      simp at h
    · exact key [] (by simp) (by simpa using hevs) hf hk
    · refine key (.createAuthorizedKeysDir u.HomeDir :: mig) ?_ (by simpa using hevs) hf hk
      intro e he
      rcases List.mem_cons.mp he with rfl | h2
      · rfl
      · exact hq e h2
    · rw [hr] at h
      simp at h

/-- C3, at concrete inputs, one for each way to fail: `flock` refused, the store path a
regular file, the store absent without creation, and a migration that fails. -/
theorem C3_lock_released_on_error_witness :
    ((openUser exUser true exInterrupted).1 = some (none, some (.Errno 4)) ∧
      (openUser exUser true exInterrupted).2.fds = exInterrupted.fds ∧
      ∀ user name flag perm fd,
        Event.OpenFile user name flag perm (some fd) ∈
            newEvents exInterrupted (openUser exUser true exInterrupted).2 →
          Event.Close fd ∈ newEvents exInterrupted (openUser exUser true exInterrupted).2 ∧
          (∀ n, (fd, n) ∉ (openUser exUser true exInterrupted).2.fds) ∧
          fd ∉ (openUser exUser true exInterrupted).2.locks) ∧
    ((openUser exUser true exCollision).2.fds = exCollision.fds ∧
      ∀ user name flag perm fd,
        Event.OpenFile user name flag perm (some fd) ∈
            newEvents exCollision (openUser exUser true exCollision).2 →
          Event.Close fd ∈ newEvents exCollision (openUser exUser true exCollision).2 ∧
          (∀ n, (fd, n) ∉ (openUser exUser true exCollision).2.fds) ∧
          fd ∉ (openUser exUser true exCollision).2.locks) ∧
    ((openUser exUser false exFresh).2.fds = exFresh.fds ∧
      ∀ user name flag perm fd,
        Event.OpenFile user name flag perm (some fd) ∈
            newEvents exFresh (openUser exUser false exFresh).2 →
          Event.Close fd ∈ newEvents exFresh (openUser exUser false exFresh).2 ∧
          (∀ n, (fd, n) ∉ (openUser exUser false exFresh).2.fds) ∧
          fd ∉ (openUser exUser false exFresh).2.locks) ∧
    ((openUser exUser true exStageBlocked).1 =
        some (none, some (.PathError "unlinkat" (stageDirPath exUser) 13)) ∧
      (openUser exUser true exStageBlocked).2.fds = exStageBlocked.fds ∧
      ∀ user name flag perm fd,
        Event.OpenFile user name flag perm (some fd) ∈
            newEvents exStageBlocked (openUser exUser true exStageBlocked).2 →
          Event.Close fd ∈ newEvents exStageBlocked (openUser exUser true exStageBlocked).2 ∧
          (∀ n, (fd, n) ∉ (openUser exUser true exStageBlocked).2.fds) ∧
          fd ∉ (openUser exUser true exStageBlocked).2.locks) :=
  ⟨⟨by decide, C3_lock_released_on_error exUser true exInterrupted none (.Errno 4) (by decide)⟩,
   C3_lock_released_on_error exUser true exCollision none
     (fmt.Errorf "%q is not a directory" [authKeysDirPath exUser]) (by decide),
   C3_lock_released_on_error exUser false exFresh none
     (.PathError "stat" (authKeysDirPath exUser) syscall.ENOENT) (by decide),
   ⟨by decide, C3_lock_released_on_error exUser true exStageBlocked none
     (.PathError "unlinkat" (stageDirPath exUser) 13) (by decide)⟩⟩

/-- C5. With the lock held, `openUser` enters `createAuthorizedKeysDir` exactly when
`create` is true and `opendir` failed with an error satisfying `os.IsNotExist`, and then
for this user; any other error of `opendir` is returned unchanged with `create` true, and
the migration is not entered. -/
theorem C5_migration_iff (u : provider.User) (create : Bool) (w : World)
    (hl : (acquireLock u w).1.2 = none) :
    ((∃ e ∈ newEvents w (openUser u create w).2, e.isCreate = true) ↔
      (create = true ∧
        os.IsNotExist (opendir (authKeysDirPath u) (acquireLock u w).2).1.2 = true)) ∧
    ((∃ e ∈ newEvents w (openUser u create w).2, e.isCreate = true) →
      Event.createAuthorizedKeysDir u.HomeDir ∈ newEvents w (openUser u create w).2) ∧
    (∀ err, (opendir (authKeysDirPath u) (acquireLock u w).2).1.2 = some err →
      os.IsNotExist (some err) = false →
        (openUser u true w).1 = some (none, some err) ∧
        ∀ e ∈ newEvents w (openUser u true w).2, e.isCreate = false) := by
  have hnone : ∀ (c : Bool) (evs : List Event),
      newEvents w (openUser u c w).2 =
        [.OpenFile u.Name (lockFilePath u) 64 0o600 (some (lowestFree (w.fds.map Prod.fst))),
         .Flock (lowestFree (w.fds.map Prod.fst)) syscall.LOCK_EX true,
         .Stat (authKeysDirPath u)] ++ evs →
      (evs = [] ∨ evs = [.Close (lowestFree (w.fds.map Prod.fst))]) →
      ∀ e ∈ newEvents w (openUser u c w).2, e.isCreate = false := by
    intro c evs hev hevs e he
    rw [hev] at he
    rcases hevs with rfl | rfl
    · simp only [List.append_nil, List.mem_cons, List.not_mem_nil, or_false] at he
      rcases he with rfl | rfl | rfl <;> rfl
    · simp only [List.cons_append, List.nil_append, List.mem_cons, List.not_mem_nil,
        or_false] at he
      rcases he with rfl | rfl | rfl | rfl <;> rfl
  have hcontra : ∀ c : Bool, (∀ e ∈ newEvents w (openUser u c w).2, e.isCreate = false) →
      ¬ ∃ e ∈ newEvents w (openUser u c w).2, e.isCreate = true := by
    rintro c hall ⟨e, he, hc⟩
    rw [hall e he] at hc
    exact absurd hc (by simp)
  refine ⟨?_, ?_, ?_⟩
  · obtain ⟨evs, hev, h⟩ := openUser_after_lock u create w hl
    rcases h with ⟨_, hevs, hdir, _⟩ | ⟨err, _, herr, hc, hevs, _⟩ | ⟨hc, hne, mig, _, hm⟩
    · have hall := hnone create evs hev (Or.inl hevs)
      constructor
      · intro hex
        exact absurd hex (hcontra create hall)
      · rintro ⟨_, hne⟩
        simp [opendir_eq, hdir, os.IsNotExist] at hne
    · have hall := hnone create evs hev (Or.inr hevs)
      constructor
      · intro hex
        exact absurd hex (hcontra create hall)
      · rintro ⟨hc1, hne⟩
        rw [herr] at hne
        rcases hc with hc | hc
        · rw [hc] at hc1
          exact absurd hc1 (by simp)
        · rw [hc] at hne
          exact absurd hne (by simp)
    · constructor
      · intro _
        exact ⟨hc, hne⟩
      · intro _
        refine ⟨.createAuthorizedKeysDir u.HomeDir, ?_, rfl⟩
        rw [hev]
        rcases hm with ⟨_, _, hevs, _⟩ | ⟨_, hevs, _⟩ <;> simp [hevs]
  · intro hex
    obtain ⟨evs, hev, h⟩ := openUser_after_lock u create w hl
    rcases h with ⟨_, hevs, _⟩ | ⟨_, _, _, _, hevs, _⟩ | ⟨_, _, mig, _, hm⟩
    · exact absurd hex (hcontra create (hnone create evs hev (Or.inl hevs)))
    · exact absurd hex (hcontra create (hnone create evs hev (Or.inr hevs)))
    · rw [hev]
      rcases hm with ⟨_, _, hevs, _⟩ | ⟨_, hevs, _⟩ <;> simp [hevs]
  · intro err herr hne
    obtain ⟨evs, hev, h⟩ := openUser_after_lock u true w hl
    rcases h with ⟨_, _, hdir, _⟩ | ⟨err2, hr, herr2, _, hevs, _⟩ | ⟨_, hne2, _⟩
    · simp [opendir_eq, hdir] at herr
    · rw [herr] at herr2
      have : err2 = err := (Option.some.inj herr2).symm
      subst this
      exact ⟨hr, hnone true evs hev (Or.inr hevs)⟩
    · rw [herr, hne] at hne2
      exact absurd hne2 (by simp)

/-- C5, at concrete inputs: a fresh home directory with creation requested (migration
entered), and a store path that fails to resolve with `EACCES` (error returned). -/
theorem C5_migration_iff_witness :
    (acquireLock exUser exFresh).1.2 = none ∧
    Event.createAuthorizedKeysDir exUser.HomeDir ∈
      newEvents exFresh (openUser exUser true exFresh).2 ∧
    (acquireLock exUser exDenied).1.2 = none ∧
    (openUser exUser true exDenied).1 =
      some (none, some (.PathError "stat" (authKeysDirPath exUser) 13)) ∧
    (∀ e ∈ newEvents exDenied (openUser exUser true exDenied).2, e.isCreate = false) :=
  ⟨by decide,
   (C5_migration_iff exUser true exFresh (by decide)).2.1
     ((C5_migration_iff exUser true exFresh (by decide)).1.mpr ⟨rfl, by decide⟩),
   by decide,
   (C5_migration_iff exUser true exDenied (by decide)).2.2
     (.PathError "stat" (authKeysDirPath exUser) 13) (by decide) (by decide)⟩

/-- C6. When the store exists as a directory and lock acquisition succeeds, `openUser u true`
and `openUser u false` are the same call: same result, same world after.  Both return the
handle with the store's path, the user and the lock; neither enters the migration; the
staging file, the staging directory and the legacy file are what they were. -/
theorem C6_open_existing (u : provider.User) (w : World)
    (hl : (acquireLock u w).1.2 = none) (hd : w.fs (authKeysDirPath u) = some .dir) :
    openUser u true w = openUser u false w ∧
    (∀ create, (openUser u create w).1 =
        some (some ⟨authKeysDirPath u, some u, (acquireLock u w).1.1⟩, none) ∧
      (∀ e ∈ newEvents w (openUser u create w).2, e.isCreate = false) ∧
      (openUser u create w).2.fs (stageFilePath u) = w.fs (stageFilePath u) ∧
      (openUser u create w).2.fs (stageDirPath u) = w.fs (stageDirPath u) ∧
      (openUser u create w).2.fs (authKeysFilePath (osUser u))
        = w.fs (authKeysFilePath (osUser u))) := by
  obtain ⟨w1, hA, _, _, htr⟩ := acquireLock_ok u w hl
  obtain ⟨f1, _, _⟩ := acquireLock_fs u w
  rw [hA] at f1
  have hd1 : w1.fs (authKeysDirPath u) = some .dir := by
    rw [f1 _ (Ne.symm (lock_ne_authKeysDirPath u)), hd]
  have hopen := fun c => openUser_dir u c w w1 _ hA hd1
  refine ⟨by rw [hopen true, hopen false], ?_⟩
  intro c
  rw [hopen c, hA]
  refine ⟨rfl, ?_, f1 _ (Ne.symm (lock_ne_stageFilePath u)),
    f1 _ (Ne.symm (lock_ne_stageDirPath u)), f1 _ (Ne.symm (lock_ne_authKeysFilePath u _))⟩
  intro e he
  simp only [newEvents, World.log, htr, List.append_assoc, List.drop_left, List.cons_append,
    List.nil_append, List.mem_cons, List.not_mem_nil, or_false] at he
  rcases he with rfl | rfl | rfl <;> rfl

/-- C6, at a concrete input: a user already migrated. -/
theorem C6_open_existing_witness :
    (acquireLock exUser exMigrated).1.2 = none ∧
    exMigrated.fs (authKeysDirPath exUser) = some .dir ∧
    openUser exUser true exMigrated = openUser exUser false exMigrated ∧
    (∀ create, (openUser exUser create exMigrated).1 =
        some (some ⟨authKeysDirPath exUser, some exUser, (acquireLock exUser exMigrated).1.1⟩,
          none) ∧
      (∀ e ∈ newEvents exMigrated (openUser exUser create exMigrated).2, e.isCreate = false) ∧
      (openUser exUser create exMigrated).2.fs (stageFilePath exUser)
        = exMigrated.fs (stageFilePath exUser) ∧
      (openUser exUser create exMigrated).2.fs (stageDirPath exUser)
        = exMigrated.fs (stageDirPath exUser) ∧
      (openUser exUser create exMigrated).2.fs (authKeysFilePath (osUser exUser))
        = exMigrated.fs (authKeysFilePath (osUser exUser))) :=
  ⟨by decide, by decide, C6_open_existing exUser exMigrated (by decide) (by decide)⟩

/-- C8. If `acquireLock` fails, `openUser` returns its error in the world `acquireLock`
left, in which this call made no `stat` of the store path and did not enter the migration.
If it succeeds, the events of the call are those of `acquireLock`, ending with the granted
`flock`, followed by the `stat` of the store path and whatever comes after it. -/
theorem C8_lock_before_stat (u : provider.User) (create : Bool) (w : World) :
    (∀ e, (acquireLock u w).1.2 = some e →
      openUser u create w = (some (none, some e), (acquireLock u w).2) ∧
      ∀ ev ∈ newEvents w (openUser u create w).2,
        ev.isStatOf (authKeysDirPath u) = false ∧ ev.isCreate = false) ∧
    ((acquireLock u w).1.2 = none →
      ∃ fd rest,
        newEvents w (acquireLock u w).2 =
          [.OpenFile u.Name (lockFilePath u) (syscall.O_CREAT ||| syscall.O_RDONLY) 0o600
             (some fd),
           .Flock fd syscall.LOCK_EX true] ∧
        newEvents w (openUser u create w).2 =
          newEvents w (acquireLock u w).2 ++ .Stat (authKeysDirPath u) :: rest ∧
        ∀ ev ∈ newEvents w (acquireLock u w).2,
          ev.isStatOf (authKeysDirPath u) = false ∧ ev.isCreate = false) := by
  have hflag : syscall.O_CREAT ||| syscall.O_RDONLY = 64 := by decide
  rw [hflag]
  constructor
  · intro e hl
    obtain ⟨_, _, hcase⟩ := acquireLock_failed u w e hl
    rw [openUser_lock_err u create w e hl]
    refine ⟨rfl, ?_⟩
    intro ev hev
    rcases hcase with ⟨n, _, htr⟩ | ⟨n, _, htr, _⟩
    · rw [newEvents_append _ _ _ htr] at hev
      simp only [List.mem_cons, List.not_mem_nil, or_false] at hev
      subst hev
      exact ⟨rfl, rfl⟩
    · rw [newEvents_append _ _ _ htr] at hev
      simp only [List.mem_cons, List.not_mem_nil, or_false] at hev
      rcases hev with rfl | rfl | rfl <;> exact ⟨rfl, rfl⟩
  · intro hl
    obtain ⟨w1, hA, _, _, htr⟩ := acquireLock_ok u w hl
    obtain ⟨evs, hev, _⟩ := openUser_after_lock u create w hl
    refine ⟨lowestFree (w.fds.map Prod.fst), evs, ?_, ?_, ?_⟩
    · rw [hA]
      exact newEvents_append _ _ _ htr
    · rw [hev, hA, newEvents_append _ _ _ htr]
      rfl
    · intro ev hmem
      rw [hA, newEvents_append _ _ _ htr] at hmem
      simp only [List.mem_cons, List.not_mem_nil, or_false] at hmem
      rcases hmem with rfl | rfl <;> exact ⟨rfl, rfl⟩

/-- C8, at concrete inputs: a refused `flock`, and a fresh home directory. -/
theorem C8_lock_before_stat_witness :
    (openUser exUser true exInterrupted = (some (none, some (.Errno 4)),
        (acquireLock exUser exInterrupted).2) ∧
      ∀ ev ∈ newEvents exInterrupted (openUser exUser true exInterrupted).2,
        ev.isStatOf (authKeysDirPath exUser) = false ∧ ev.isCreate = false) ∧
    (∃ fd rest,
        newEvents exFresh (acquireLock exUser exFresh).2 =
          [.OpenFile exUser.Name (lockFilePath exUser) (syscall.O_CREAT ||| syscall.O_RDONLY)
             0o600 (some fd),
           .Flock fd syscall.LOCK_EX true] ∧
        newEvents exFresh (openUser exUser true exFresh).2 =
          newEvents exFresh (acquireLock exUser exFresh).2 ++
            .Stat (authKeysDirPath exUser) :: rest ∧
        ∀ ev ∈ newEvents exFresh (acquireLock exUser exFresh).2,
          ev.isStatOf (authKeysDirPath exUser) = false ∧ ev.isCreate = false) :=
  ⟨(C8_lock_before_stat exUser true exInterrupted).1 (.Errno 4) (by decide),
   (C8_lock_before_stat exUser true exFresh).2 (by decide)⟩

/-- C10. The path helpers are the joins of the documented layout and depend on the home
directory only: the lock file is `Join(HomeDir, ".authorized_keys.d.lock")`, directly
under the home directory and never the path of that name under `.ssh`; the `.ssh` directory
is `Join(HomeDir, ".ssh")`; and the nested join of `authKeysFilePath` is the three-argument
`Join(HomeDir, ".ssh", "authorized_keys")`, for every home directory string. -/
theorem C10_path_layout (u : provider.User) (v : user.User) :
    lockFilePath u = filepath.Join [u.HomeDir, ".authorized_keys.d.lock"] ∧
    sshDirPath v = filepath.Join [v.HomeDir, ".ssh"] ∧
    authKeysFilePath v = filepath.Join [v.HomeDir, ".ssh", "authorized_keys"] ∧
    (∀ u2 : provider.User, u2.HomeDir = u.HomeDir → lockFilePath u2 = lockFilePath u) ∧
    (∀ v2 : user.User, v2.HomeDir = v.HomeDir →
      sshDirPath v2 = sshDirPath v ∧ authKeysFilePath v2 = authKeysFilePath v) ∧
    lockFilePath u ≠ filepath.Join [u.HomeDir, ".ssh", ".authorized_keys.d.lock"] := by
  refine ⟨rfl, rfl, ?_, ?_, ?_, ?_⟩
  · exact filepath.Join_nested v.HomeDir ".ssh" "authorized_keys"
  · intro u2 h
    simp only [lockFilePath, h]
  · intro v2 h
    simp only [authKeysFilePath, sshDirPath, h, and_self]
  · exact filepath.Join_not_below u.HomeDir ".ssh" ".authorized_keys.d.lock" name_sshDir
      name_lockFile (by decide)

theorem isPrefixOf_append_left (R x y : List Char) :
    (R ++ x).isPrefixOf (R ++ y) = x.isPrefixOf y := by
  induction R with
  | nil => rfl
  | cons c R ih => simp [List.isPrefixOf, ih]

theorem under_of_data (d k : String) (R x y : List Char) (hd : d.data = R ++ x)
    (hk : k.data = R ++ y) :
    under d k = (decide (y = x) || (x ++ ['/']).isPrefixOf y) := by
  have h1 : decide (k = d) = decide (y = x) := by
    have : k = d ↔ y = x := by
      constructor
      · intro h
        rw [h, hd] at hk
        exact (List.append_cancel_left hk).symm
      · intro h
        apply String.ext
        rw [hd, hk, h]
    simp only [this]
  unfold under
  rw [h1, hd, hk, List.append_assoc, isPrefixOf_append_left]

theorem rebase_of_data (src dst k k2 : String) (z : List Char)
    (hk : k.data = src.data ++ z) (hk2 : k2.data = dst.data ++ z) : rebase src dst k = k2 := by
  apply String.ext
  simp [rebase, hk, hk2]

theorem ne_of_data (a b : String) (R x y : List Char) (ha : a.data = R ++ x)
    (hb : b.data = R ++ y) (h : x ≠ y) : a ≠ b := by
  intro hab
  rw [hab, hb] at ha
  exact h (List.append_cancel_left ha).symm

theorem paths_data (u : provider.User) :
    (authKeysFilePath (osUser u)).data
      = (sshDirPath (osUser u)).data ++ "/authorized_keys".data ∧
    (authKeysDirPath u).data = (sshDirPath (osUser u)).data ++ "/authorized_keys.d".data ∧
    (stageDirPath u).data
      = (sshDirPath (osUser u)).data ++ "/.authorized_keys.d.stage_dir".data ∧
    (filepath.Join [stageDirPath u, preservedKeysName]).data
      = (sshDirPath (osUser u)).data ++
          "/.authorized_keys.d.stage_dir/orig_authorized_keys".data ∧
    (filepath.Join [authKeysDirPath u, preservedKeysName]).data
      = (sshDirPath (osUser u)).data ++ "/authorized_keys.d/orig_authorized_keys".data := by
  have h1 := filepath.Join_sub (osUser u).HomeDir sshDir authorizedKeysFile name_sshDir
    name_authorizedKeysFile
  have h2 := filepath.Join_sub (osUser u).HomeDir sshDir authorizedKeysDir name_sshDir
    name_authorizedKeysDir
  have h3 := filepath.Join_sub (osUser u).HomeDir sshDir stageDir name_sshDir name_stageDir
  have h4 := filepath.Join_sub (sshDirPath (osUser u)) stageDir preservedKeysName name_stageDir
    name_preservedKeysName
  have h5 := filepath.Join_sub (sshDirPath (osUser u)) authorizedKeysDir preservedKeysName
    name_authorizedKeysDir name_preservedKeysName
  refine ⟨h1, h2, h3, ?_, ?_⟩
  · show (filepath.Join [filepath.Join [sshDirPath (osUser u), stageDir],
      preservedKeysName]).data = _
    rw [h4]
    show (filepath.Join [filepath.Join [(osUser u).HomeDir, sshDir], stageDir]).data ++ _ = _
    rw [h3, List.append_assoc]
    rfl
  · show (filepath.Join [filepath.Join [sshDirPath (osUser u), authorizedKeysDir],
      preservedKeysName]).data = _
    rw [h5]
    show (filepath.Join [filepath.Join [(osUser u).HomeDir, sshDir], authorizedKeysDir]).data
      ++ _ = _
    rw [h2, List.append_assoc]
    rfl

theorem RemoveAll_inv (n : String) (w w2 : World) (h : os.RemoveAll n w = (none, w2)) :
    (w.fs n = some (.unresolvable syscall.ENOENT) ∧ w2.fs = w.fs) ∨
    w2.fs = fun k => if under n k then none else w.fs k := by
  unfold os.RemoveAll at h
  split at h
  · rename_i e he
    split at h
    · rename_i hq
      simp only [Prod.mk.injEq, true_and] at h
      subst h
      exact Or.inl ⟨by rw [he, hq], rfl⟩
    · simp at h
  · simp only [Prod.mk.injEq, true_and] at h
    subst h
    exact Or.inr rfl

theorem Mkdir_inv (n : String) (p : Nat) (w w2 : World) (h : os.Mkdir n p w = (none, w2)) :
    w.fs n = none ∧ w2.fs = fun k => if k = n then some .dir else w.fs k := by
  unfold os.Mkdir at h
  split at h
  · rename_i hn
    simp only [Prod.mk.injEq, true_and] at h
    subst h
    exact ⟨hn, rfl⟩
  · simp at h
  · simp at h

theorem Stat_file (n : String) (w : World) (d : List Nat) (p : Nat)
    (h : w.fs n = some (.file d p)) :
    os.Stat n w = (.ok ⟨d.length, p, false⟩, w.log (.Stat n)) := by
  simp [os.Stat, h]

theorem ReadFile_file (n : String) (w : World) (d : List Nat) (p : Nat)
    (h : w.fs n = some (.file d p)) : os.ReadFile n w = (.ok d, w.log (.ReadFile n)) := by
  simp [os.ReadFile, h]

theorem WriteFile_inv (n : String) (d : List Nat) (p : Nat) (w w2 : World)
    (h : os.WriteFile n d p w = (none, w2)) :
    ∃ p2, w2.fs = fun k => if k = n then some (.file d p2) else w.fs k := by
  unfold os.WriteFile at h
  split at h
  · simp only [Prod.mk.injEq, true_and] at h
    subst h
    exact ⟨p, rfl⟩
  · rename_i q _
    simp only [Prod.mk.injEq, true_and] at h
    subst h
    exact ⟨q, rfl⟩
  · simp at h
  · simp at h

theorem Rename_inv (a b : String) (w w2 : World) (hab : a ≠ b)
    (h : os.Rename a b w = (none, w2)) :
    w2.fs = fun k =>
      if under b k then (if under a (rebase b a k) then w.fs (rebase b a k) else none)
      else if under a k then none
      else w.fs k := by
  unfold os.Rename at h
  simp only [] at h
  split at h
  all_goals first
    | (simp at h)
    | (rw [if_neg hab] at h
       simp only [Prod.mk.injEq, true_and] at h
       subst h
       rfl)

theorem Remove_inv (n : String) (w w2 : World) (h : os.Remove n w = (none, w2)) :
    w2.fs = fun k => if k = n then none else w.fs k := by
  unfold os.Remove at h
  split at h
  · simp at h
  · simp at h
  · simp at h
  · simp only [Prod.mk.injEq, true_and] at h
    subst h
    rfl

theorem createAuthorizedKeysDir_success (u : provider.User) (w w3 : World)
    (a : sshAuthorizedKeysDir) (data : List Nat) (perm : Nat)
    (hf : w.fs (authKeysFilePath (osUser u)) = some (.file data perm))
    (h : createAuthorizedKeysDir u w = ((some a, none), w3)) :
    w3.fs (authKeysDirPath u) = some .dir ∧
    (∃ p, w3.fs (filepath.Join [authKeysDirPath u, preservedKeysName])
      = some (.file data p)) ∧
    w3.fs (authKeysFilePath (osUser u)) = none := by
  obtain ⟨d1, d2, d3, d4, d5⟩ := paths_data u
  -- how the five paths lie to each other
  have u1 : under (stageDirPath u) (authKeysFilePath (osUser u)) = false := by
    rw [under_of_data _ _ _ _ _ d3 d1]; decide
  have u2 : under (stageDirPath u) (authKeysDirPath u) = false := by
    rw [under_of_data _ _ _ _ _ d3 d2]; decide
  have u3 : under (stageDirPath u) (filepath.Join [stageDirPath u, preservedKeysName])
      = true := by
    rw [under_of_data _ _ _ _ _ d3 d4]; decide
  have u4 : under (stageDirPath u) (stageDirPath u) = true := by simp [under]
  have u5 : under (authKeysDirPath u) (authKeysDirPath u) = true := by simp [under]
  have u6 : under (authKeysDirPath u) (authKeysFilePath (osUser u)) = false := by
    rw [under_of_data _ _ _ _ _ d2 d1]; decide
  have u7 : under (authKeysDirPath u) (filepath.Join [authKeysDirPath u, preservedKeysName])
      = true := by
    rw [under_of_data _ _ _ _ _ d2 d5]; decide
  have n1 : authKeysFilePath (osUser u) ≠ stageDirPath u :=
    ne_of_data _ _ _ _ _ d1 d3 (by decide)
  have n2 : authKeysDirPath u ≠ stageDirPath u := ne_of_data _ _ _ _ _ d2 d3 (by decide)
  have n3 : filepath.Join [stageDirPath u, preservedKeysName] ≠ stageDirPath u :=
    ne_of_data _ _ _ _ _ d4 d3 (by decide)
  have n4 : authKeysFilePath (osUser u) ≠ filepath.Join [stageDirPath u, preservedKeysName] :=
    ne_of_data _ _ _ _ _ d1 d4 (by decide)
  have n5 : authKeysDirPath u ≠ filepath.Join [stageDirPath u, preservedKeysName] :=
    ne_of_data _ _ _ _ _ d2 d4 (by decide)
  have n6 : authKeysDirPath u ≠ authKeysFilePath (osUser u) :=
    ne_of_data _ _ _ _ _ d2 d1 (by decide)
  have n7 : filepath.Join [authKeysDirPath u, preservedKeysName]
      ≠ authKeysFilePath (osUser u) := ne_of_data _ _ _ _ _ d5 d1 (by decide)
  have r1 : rebase (authKeysDirPath u) (stageDirPath u) (authKeysDirPath u) = stageDirPath u :=
    rebase_of_data _ _ _ _ [] (by simp) (by simp)
  have r2 : rebase (authKeysDirPath u) (stageDirPath u)
      (filepath.Join [authKeysDirPath u, preservedKeysName])
      = filepath.Join [stageDirPath u, preservedKeysName] := by
    refine rebase_of_data _ _ _ _ "/orig_authorized_keys".data ?_ ?_
    · rw [d5, d2, List.append_assoc]
      rfl
    · rw [d4, d3, List.append_assoc]
      rfl
  -- the run of the migration
  unfold createAuthorizedKeysDir at h
  rcases h1 : os.RemoveAll (stageDirPath u) (w.log (.createAuthorizedKeysDir u.HomeDir))
    with ⟨e1, wa⟩
  rw [h1] at h
  cases e1 with
  | some err => simp at h
  | none =>
    dsimp only at h
    rcases h2 : os.Mkdir (stageDirPath u) 0o700 wa with ⟨e2, wb⟩
    rw [h2] at h
    cases e2 with
    | some err => simp at h
    | none =>
      dsimp only at h
      obtain ⟨hsn, hwb⟩ := Mkdir_inv _ _ _ _ h2
      have hwa : wa.fs = fun k => if under (stageDirPath u) k then none else w.fs k := by
        rcases RemoveAll_inv _ _ _ h1 with ⟨hun, hsame⟩ | hrm
        · rw [hsame] at hsn
          rw [hsn] at hun
          exact absurd hun (by simp)
        · exact hrm
      have fb : wb.fs (authKeysFilePath (osUser u)) = some (.file data perm) := by
        rw [hwb, hwa]
        simp only [if_neg n1, u1, Bool.false_eq_true, if_false]
        exact hf
      rw [Stat_file _ wb data perm fb] at h
      simp only [os.FileInfo.IsDir, Bool.false_eq_true, if_false] at h
      rw [ReadFile_file _ (wb.log (.Stat (authKeysFilePath (osUser u)))) data perm fb] at h
      dsimp only at h
      rcases h5 : os.WriteFile (filepath.Join [stageDirPath u, preservedKeysName]) data 0o600
        ((wb.log (.Stat (authKeysFilePath (osUser u)))).log
          (.ReadFile (authKeysFilePath (osUser u)))) with ⟨e5, we⟩
      rw [h5] at h
      cases e5 with
      | some err => simp at h
      | none =>
        dsimp only at h
        obtain ⟨p2, hwe⟩ := WriteFile_inv _ _ _ _ _ h5
        unfold installStaged at h
        rcases h6 : os.Rename (stageDirPath u) (authKeysDirPath u) we with ⟨e6, wf⟩
        rw [h6] at h
        cases e6 with
        | some err => simp at h
        | none =>
          simp only [if_true] at h
          have hwf := Rename_inv _ _ _ _ (Ne.symm n2) h6
          rcases h7 : os.Remove (authKeysFilePath (osUser u)) wf with ⟨e7, wg⟩
          rw [h7] at h
          cases e7 with
          | some err => simp at h
          | none =>
            have hwg := Remove_inv _ _ _ h7
            simp only [Prod.mk.injEq] at h
            obtain ⟨_, rfl⟩ := h
            have hwe2 : we.fs = fun k =>
                if k = filepath.Join [stageDirPath u, preservedKeysName]
                then some (.file data p2) else wb.fs k := hwe
            refine ⟨?_, ⟨p2, ?_⟩, ?_⟩
            · rw [hwg, hwf]
              simp only [if_neg n6, u5, if_true, r1, u4]
              rw [hwe2, hwb]
              simp [Ne.symm n3]
            · rw [hwg, hwf]
              simp only [if_neg n7, u7, if_true, r2, u3]
              rw [hwe2]
              simp
            · rw [hwg]
              simp

/-- C4. When a legacy `authorized_keys` file exists and nothing is at the store path, a
successful `openUser u true` leaves `authorized_keys.d` a directory whose entry
`orig_authorized_keys` holds exactly the bytes the legacy file held before the call, and
the legacy path names nothing any more. -/
theorem C4_migration_preserves_legacy (u : provider.User) (w : World) (data : List Nat)
    (perm : Nat) (h : sshAuthorizedKeysDir)
    (hf : w.fs (authKeysFilePath (osUser u)) = some (.file data perm))
    (hd : w.fs (authKeysDirPath u) = none)
    (hs : (openUser u true w).1 = some (some h, none)) :
    (openUser u true w).2.fs (authKeysDirPath u) = some .dir ∧
    (∃ p, (openUser u true w).2.fs (filepath.Join [authKeysDirPath u, preservedKeysName])
      = some (.file data p)) ∧
    (openUser u true w).2.fs (authKeysFilePath (osUser u)) = none := by
  cases hl : (acquireLock u w).1.2 with
  | some e =>
    rw [openUser_lock_err u true w e hl] at hs
    simp at hs
  | none =>
    obtain ⟨w1, hA, _, _, _⟩ := acquireLock_ok u w hl
    obtain ⟨f1, _, _⟩ := acquireLock_fs u w
    rw [hA] at f1
    have hd1 : w1.fs (authKeysDirPath u) = none := by
      rw [f1 _ (Ne.symm (lock_ne_authKeysDirPath u)), hd]
    have hf1 : w1.fs (authKeysFilePath (osUser u)) = some (.file data perm) := by
      rw [f1 _ (Ne.symm (lock_ne_authKeysFilePath u _)), hf]
    have hopen := openUser_create u w w1 _ hA (Or.inl hd1)
    rcases hC : createAuthorizedKeysDir u (w1.log (.Stat (authKeysDirPath u)))
      with ⟨⟨a, e⟩, w3⟩
    rw [hopen, hC] at hs ⊢
    cases e with
    | some err => simp at hs
    | none =>
      cases a with
      | none => simp at hs
      | some a =>
        exact createAuthorizedKeysDir_success u (w1.log (.Stat (authKeysDirPath u))) w3 a data
          perm hf1 hC

/-- C4, at a concrete input: a legacy file of four bytes and a leftover staging directory. -/
theorem C4_migration_preserves_legacy_witness :
    exLegacy.fs (authKeysFilePath (osUser exUser)) = some (.file [115, 115, 104, 45] 0o644) ∧
    exLegacy.fs (authKeysDirPath exUser) = none ∧
    (openUser exUser true exLegacy).1 = some (some ⟨authKeysDirPath exUser, some exUser,
      some ⟨1, lockFilePath exUser⟩⟩, none) ∧
    (openUser exUser true exLegacy).2.fs (authKeysDirPath exUser) = some .dir ∧
    (∃ p, (openUser exUser true exLegacy).2.fs
        (filepath.Join [authKeysDirPath exUser, preservedKeysName])
      = some (.file [115, 115, 104, 45] p)) ∧
    (openUser exUser true exLegacy).2.fs (authKeysFilePath (osUser exUser)) = none :=
  ⟨by decide, by decide, by decide,
    C4_migration_preserves_legacy exUser exLegacy [115, 115, 104, 45] 0o644
      ⟨authKeysDirPath exUser, some exUser, some ⟨1, lockFilePath exUser⟩⟩
      (by decide) (by decide) (by decide)⟩

end Authorized
